import Mathlib

/-!
Verification of the invoice-calculator core of `src/invoice_app/main.py`
(`InvoiceItem`, `_parse_decimal`, `_safe_rate`, `_add_item`, `_update_totals`,
`_format_currency`, `_format_quantity`, `_format_rate`).

The program computes with Python `decimal.Decimal` values.  A finite `Decimal`
is an integer mantissa with a decimal exponent; the embedding represents it by
the type `Decimal` below (`man / 10 ^ exp`).  The default context is modelled
at the level of values: `+`, `-`, `*` and `/` round their exact result to the
context's 28 significant digits half-even (`ctxRound`), and `quantize` signals
the trapped `InvalidOperation` (`none`) when its result coefficient would
reach `10 ^ 28`.  The rational value of a `Decimal` is given by
`Decimal.toRat`, and the specification-level rounding functions
`round_half_up` / `round_half_even` are stated on `ℚ`.  Python `Decimal`
special values (infinities and NaNs), which the `Decimal` string constructor
accepts and which make trapped `InvalidOperation` conditions reachable in
`_update_totals`, are modelled by `PyDec`; an operation that signals a
condition trapped by the default context is modelled as `none`.  Strings are
modelled over their character lists; the constructor's removal of underscore
grouping is modelled, while whitespace and digits are modelled at the ASCII
subset (the `decimal` grammar additionally admits other Unicode digits and
whitespace, to which the claims quantifying over strings are scoped).
-/

/-- `ROUND_HALF_UP` of Python `decimal` at integer precision: round `x` to the
nearest integer, ties away from zero. -/
def rhuInt (x : ℚ) : ℤ :=
  if 0 ≤ x then (x + 1 / 2).floor else -(-x + 1 / 2).floor

/-- Rounding half-up (ties away from zero) to `n` decimal places, the
specification's `round_half_up(x, n)`. -/
def round_half_up (n : ℕ) (x : ℚ) : ℚ :=
  (rhuInt (x * 10 ^ n) : ℚ) / 10 ^ n

/-- Round a nonnegative `x` to the nearest integer, ties to the even
neighbour. -/
def rheAux (x : ℚ) : ℤ :=
  if x - x.floor < 1 / 2 then x.floor
  else if 1 / 2 < x - x.floor then x.floor + 1
  else if x.floor % 2 = 0 then x.floor else x.floor + 1

/-- `ROUND_HALF_EVEN` (the default-context rounding of Python `decimal`) at
integer precision: round to nearest, ties to even.  Half-even rounding is
symmetric about zero, so it is written through the absolute value. -/
def rheInt (x : ℚ) : ℤ :=
  if 0 ≤ x then rheAux x else -rheAux (-x)

/-- Rounding half-even to `n` decimal places, as performed by
`value.quantize(Decimal("0.01"))` under the default context. -/
def round_half_even (n : ℕ) (x : ℚ) : ℚ :=
  (rheInt (x * 10 ^ n) : ℚ) / 10 ^ n

/-- A finite Python `Decimal` value: `man / 10 ^ exp`. -/
structure Decimal where
  man : ℤ
  exp : ℕ
deriving DecidableEq

/-- The rational value of a finite `Decimal`. -/
def Decimal.toRat (d : Decimal) : ℚ :=
  (d.man : ℚ) / 10 ^ d.exp

/-- Exact `Decimal` multiplication. -/
def Decimal.mul (a b : Decimal) : Decimal :=
  ⟨a.man * b.man, a.exp + b.exp⟩

/-- Exact `Decimal` addition (align to the finer exponent). -/
def Decimal.add (a b : Decimal) : Decimal :=
  ⟨a.man * 10 ^ (max a.exp b.exp - a.exp) + b.man * 10 ^ (max a.exp b.exp - b.exp),
    max a.exp b.exp⟩

/-- `Decimal` negation. -/
def Decimal.neg (a : Decimal) : Decimal :=
  ⟨-a.man, a.exp⟩

/-- `Decimal` subtraction. -/
def Decimal.sub (a b : Decimal) : Decimal :=
  a.add b.neg

/-- Exact division by `Decimal("100")`: shift the exponent by two. -/
def Decimal.div100 (a : Decimal) : Decimal :=
  ⟨a.man, a.exp + 2⟩

/-- Round `a / s` half-up (`s` a positive power of ten, hence `s / 2` exact). -/
def rhuNat (a s : ℕ) : ℕ :=
  (a + s / 2) / s

/-- Round `a / s` half-even. -/
def rheNat (a s : ℕ) : ℕ :=
  if a % s * 2 < s then a / s
  else if s < a % s * 2 then a / s + 1
  else if a / s % 2 = 0 then a / s else a / s + 1

/-- `value.quantize(Decimal("0.0…01"), rounding=ROUND_HALF_UP)` with `n`
fractional digits. -/
def Decimal.quantizeHU (n : ℕ) (d : Decimal) : Decimal :=
  if d.exp ≤ n then ⟨d.man * 10 ^ (n - d.exp), n⟩
  else if 0 ≤ d.man then ⟨(rhuNat d.man.toNat (10 ^ (d.exp - n)) : ℤ), n⟩
  else ⟨-(rhuNat d.man.natAbs (10 ^ (d.exp - n)) : ℤ), n⟩

/-- `value.quantize(Decimal("0.0…01"))` under the default context
(`ROUND_HALF_EVEN`) with `n` fractional digits. -/
def Decimal.quantizeHE (n : ℕ) (d : Decimal) : Decimal :=
  if d.exp ≤ n then ⟨d.man * 10 ^ (n - d.exp), n⟩
  else if 0 ≤ d.man then ⟨(rheNat d.man.toNat (10 ^ (d.exp - n)) : ℤ), n⟩
  else ⟨-(rheNat d.man.natAbs (10 ^ (d.exp - n)) : ℤ), n⟩

/-- The ASCII digit character for `d < 10`. -/
def digitOfNat (d : ℕ) : Char :=
  Char.ofNat (48 + d)

/-- Most-significant-first decimal digits of `n`, on fuel (each step divides
by ten, so `n + 1` steps always suffice). -/
def natDigitsAux : ℕ → ℕ → List Char
  | 0, _ => []
  | fuel + 1, n =>
      if n < 10 then [digitOfNat n]
      else natDigitsAux fuel (n / 10) ++ [digitOfNat (n % 10)]

/-- Decimal digit string of `n` (no sign, no leading zeros, `"0"` for 0). -/
def natDigits (n : ℕ) : List Char :=
  natDigitsAux (n + 1) n

/-- Rounding of an exact result to the default context's 28 significant
digits (`ROUND_HALF_EVEN`), as Python applies to the outcome of `+`, `-`,
`*` and `/`: a coefficient of more than 28 digits is rounded half-even at
the excess digits, preserving the result's scale.  The digit count is taken
of this value-level mantissa; when it exceeds Python's coefficient count the
surplus digits are trailing zeros, which round away exactly, so the function
agrees with Python's coefficient-level rounding on values. -/
def ctxRound (d : Decimal) : Decimal :=
  let D := (natDigits d.man.natAbs).length
  if D ≤ 28 then d
  else
    let k := D - 28
    let m : ℤ :=
      if 0 ≤ d.man then (rheNat d.man.toNat (10 ^ k) : ℤ)
      else -(rheNat d.man.natAbs (10 ^ k) : ℤ)
    if k ≤ d.exp then ⟨m, d.exp - k⟩ else ⟨m * 10 ^ (k - d.exp), 0⟩

/-- `Decimal` multiplication under the default context. -/
def Decimal.mulC (a b : Decimal) : Decimal :=
  ctxRound (a.mul b)

/-- `Decimal` addition under the default context. -/
def Decimal.addC (a b : Decimal) : Decimal :=
  ctxRound (a.add b)

/-- Division by `Decimal("100")` under the default context: the exact
quotient, context-rounded. -/
def Decimal.div100C (a : Decimal) : Decimal :=
  ctxRound a.div100

/-- `value.quantize(Decimal("0.0…01"), rounding=ROUND_HALF_UP)` under the
default context: `InvalidOperation` (trapped, so the program raises: `none`)
when the result coefficient would exceed the context precision of 28 digits,
that is, reach `10 ^ 28`. -/
def Decimal.quantizeOptHU (n : ℕ) (d : Decimal) : Option Decimal :=
  let q := Decimal.quantizeHU n d
  if q.man.natAbs < 10 ^ 28 then some q else none

/-- `value.quantize(Decimal("0.0…01"))` with the context rounding
(`ROUND_HALF_EVEN`), signalling on precision overflow like the half-up
form. -/
def Decimal.quantizeOptHE (n : ℕ) (d : Decimal) : Option Decimal :=
  let q := Decimal.quantizeHE n d
  if q.man.natAbs < 10 ^ 28 then some q else none

/-- The `InvoiceItem` dataclass of `main.py`. -/
structure InvoiceItem where
  quantity : Decimal
  description : String
  unit_price : Decimal
deriving DecidableEq

/-- The `total` property of `InvoiceItem`:
`(quantity * unit_price).quantize(Decimal("0.01"), rounding=ROUND_HALF_UP)`. -/
def InvoiceItem.total (it : InvoiceItem) : Decimal :=
  Decimal.quantizeHU 2 (it.quantity.mul it.unit_price)

/-- `sum((item.total for item in self.items), Decimal("0"))` from
`_update_totals`. -/
def base_of (items : List InvoiceItem) : Decimal :=
  items.foldl (fun acc it => acc.add it.total) ⟨0, 0⟩

/-- The `total` property under the default context: the product is
context-rounded and the cent quantization signals on precision overflow. -/
def InvoiceItem.totalOpt (it : InvoiceItem) : Option Decimal :=
  Decimal.quantizeOptHU 2 (it.quantity.mulC it.unit_price)

/-- `sum((item.total for item in self.items), Decimal("0"))` under the
default context: a line total may signal, and each addition context-rounds
its exact sum. -/
def base_sum : Decimal → List InvoiceItem → Option Decimal
  | acc, [] => some acc
  | acc, it :: rest =>
      match it.totalOpt with
      | some t => base_sum (Decimal.addC acc t) rest
      | none => none

/-- The four derived amounts of `_update_totals` (spec name `InvoiceTotals`). -/
structure InvoiceTotals where
  base_amount : Decimal
  vat_amount : Decimal
  withholding_amount : Decimal
  total_amount : Decimal
deriving DecidableEq

/-- The arithmetic core of `_update_totals` applied to already-parsed finite
rates: `vat_amount = (base * vat_rate / 100).quantize(0.01, ROUND_HALF_UP)`,
`withholding_amount = (base * withholding_rate / 100).quantize(0.01,
ROUND_HALF_UP)`, `total_amount = base + vat_amount - withholding_amount`. -/
def update_totals_val (items : List InvoiceItem) (vat_rate withholding_rate : Decimal) :
    InvoiceTotals :=
  let base := base_of items
  let vat_amount := Decimal.quantizeHU 2 ((base.mul vat_rate).div100)
  let withholding_amount := Decimal.quantizeHU 2 ((base.mul withholding_rate).div100)
  ⟨base, vat_amount, withholding_amount, (base.add vat_amount).sub withholding_amount⟩

/-- Per-item guard that the 28-digit precision is never exceeded in the line
total: the exact product and its cent quantization both keep their
coefficients below `10 ^ 28`, so the context computes them exactly. -/
def item_small (it : InvoiceItem) : Bool :=
  decide ((it.quantity.mul it.unit_price).man.natAbs < 10 ^ 28)
    && decide ((Decimal.quantizeHU 2 (it.quantity.mul it.unit_price)).man.natAbs < 10 ^ 28)

/-- Guard that every partial sum of the base accumulation keeps its
coefficient below `10 ^ 28`, so each context addition is exact. -/
def sums_small : Decimal → List InvoiceItem → Bool
  | _, [] => true
  | acc, it :: rest =>
      decide ((acc.add it.total).man.natAbs < 10 ^ 28) && sums_small (acc.add it.total) rest

/-- ASCII whitespace stripped by Python `str.strip`. -/
def isSpaceChar (c : Char) : Bool :=
  c == ' ' || c == '\t' || c == '\n' || c == '\r' || c == '\x0b' || c == '\x0c'
    || c == '\x1c' || c == '\x1d' || c == '\x1e' || c == '\x1f'

/-- `value.replace(",", ".")` acts on each character. -/
def commaToDot (c : Char) : Char :=
  if c == ',' then '.' else c

/-- `text.replace(".", ",")` acts on each character. -/
def dotToComma (c : Char) : Char :=
  if c == '.' then ',' else c

/-- ASCII lower-casing, for the case-insensitive `Decimal` keyword forms. -/
def lowerChar (c : Char) : Char :=
  if 'A' ≤ c ∧ c ≤ 'Z' then Char.ofNat (c.toNat + 32) else c

/-- Python `str.strip()` on a character list. -/
def pyStrip (l : List Char) : List Char :=
  ((l.dropWhile isSpaceChar).reverse.dropWhile isSpaceChar).reverse

/-- Numeric value of an ASCII digit. -/
def charVal (c : Char) : ℕ :=
  c.toNat - 48

/-- Value of a most-significant-first digit string. -/
def digitsVal (l : List Char) : ℕ :=
  l.foldl (fun a c => 10 * a + charVal c) 0

/-- A Python `Decimal` as produced by the string constructor: a finite value,
a signed infinity, a quiet NaN or a signaling NaN. -/
inductive PyDec where
  | fin (d : Decimal)
  | pinf
  | ninf
  | qnan
  | snan
deriving DecidableEq

/-- Consume one optional leading sign, reporting whether it was `-`. -/
def dropSignL (l : List Char) : Bool × List Char :=
  match l with
  | [] => (false, [])
  | c :: r => if c == '-' then (true, r) else if c == '+' then (false, r) else (false, c :: r)

/-- Parse the text after an exponent marker: an optional sign and a nonempty
run of digits. -/
def parseExpTail (l : List Char) : Option ℤ :=
  let p := dropSignL l
  if !p.2.isEmpty && p.2.all Char.isDigit then
    some (if p.1 then -(digitsVal p.2 : ℤ) else (digitsVal p.2 : ℤ))
  else none

/-- Build the exact `Decimal` denoted by sign, integer digits, fractional
digits and exponent. -/
def decOfDigits (neg : Bool) (ip fr : List Char) (e : ℤ) : Decimal :=
  let m : ℤ := if neg then -(digitsVal (ip ++ fr) : ℤ) else (digitsVal (ip ++ fr) : ℤ)
  let net : ℤ := e - fr.length
  if 0 ≤ net then ⟨m * 10 ^ net.toNat, 0⟩ else ⟨m, (-net).toNat⟩

/-- Parse the numeric alternative of the `Decimal` grammar
(`digits [. digits] [exponent]`, at least one digit before or after the
point). -/
def parseNumericTail (neg : Bool) (l : List Char) : Option Decimal :=
  let ip := l.takeWhile Char.isDigit
  let rest := l.dropWhile Char.isDigit
  if rest.isEmpty then
    if ip.isEmpty then none else some (decOfDigits neg ip [] 0)
  else if rest.headD ' ' == '.' then
    let fr := rest.tail.takeWhile Char.isDigit
    let r3 := rest.tail.dropWhile Char.isDigit
    if ip.isEmpty && fr.isEmpty then none
    else if r3.isEmpty then some (decOfDigits neg ip fr 0)
    else if r3.headD ' ' == 'e' || r3.headD ' ' == 'E' then
      (parseExpTail r3.tail).map (fun e => decOfDigits neg ip fr e)
    else none
  else if (rest.headD ' ' == 'e' || rest.headD ' ' == 'E') && !ip.isEmpty then
    (parseExpTail rest.tail).map (fun e => decOfDigits neg ip [] e)
  else none

/-- The keyword alternatives of the `Decimal` grammar (case-insensitive
`Inf`/`Infinity`, `NaN`/`sNaN` with optional digit payload), before the sign
is applied. -/
def keywordKind (l : List Char) : Option PyDec :=
  let low := l.map lowerChar
  if low = ['i', 'n', 'f'] ∨ low = ['i', 'n', 'f', 'i', 'n', 'i', 't', 'y'] then
    some .pinf
  else if low.take 3 = ['n', 'a', 'n'] ∧ (low.drop 3).all Char.isDigit then some .qnan
  else if low.take 4 = ['s', 'n', 'a', 'n'] ∧ (low.drop 4).all Char.isDigit then some .snan
  else none

/-- The `Decimal` string constructor on an already stripped, nonempty text:
optional sign, then either the numeric form or a keyword form. -/
def parseCore (l : List Char) : Option PyDec :=
  let p := dropSignL l
  if p.2.isEmpty then none
  else if (p.2.headD ' ').isDigit || p.2.headD ' ' == '.' then
    (parseNumericTail p.1 p.2).map PyDec.fin
  else
    (keywordKind p.2).map (fun k => if k = .pinf then (if p.1 then .ninf else .pinf) else k)

/-- `_parse_decimal`: normalise the comma to a dot, strip, fail on empty,
then apply the `Decimal` constructor (which removes underscore grouping
anywhere in the text, as both implementations of `decimal` do, before
matching the literal grammar). -/
def parse_decimal (s : String) : Option PyDec :=
  let normalized := pyStrip (s.data.map commaToDot)
  if normalized.isEmpty then none
  else parseCore (normalized.filter (fun c => !(c == '_')))

/-- `_safe_rate`: a rate text that fails to parse is treated as
`Decimal("0")`. -/
def safe_rate (s : String) : PyDec :=
  match parse_decimal s with
  | some v => v
  | none => .fin ⟨0, 0⟩

/-- Python `Decimal` multiplication on the value kinds, under the default
context: an sNaN operand or `0 × ∞` signals `InvalidOperation` (trapped, so
the program raises: `none`); a quiet NaN propagates. -/
def PyDec.mul : PyDec → PyDec → Option PyDec
  | .snan, _ => none
  | _, .snan => none
  | .qnan, _ => some .qnan
  | _, .qnan => some .qnan
  | .fin a, .fin b => some (.fin (a.mulC b))
  | .fin a, .pinf => if a.man = 0 then none else if 0 < a.man then some .pinf else some .ninf
  | .fin a, .ninf => if a.man = 0 then none else if 0 < a.man then some .ninf else some .pinf
  | .pinf, .fin b => if b.man = 0 then none else if 0 < b.man then some .pinf else some .ninf
  | .ninf, .fin b => if b.man = 0 then none else if 0 < b.man then some .ninf else some .pinf
  | .pinf, .pinf => some .pinf
  | .pinf, .ninf => some .ninf
  | .ninf, .pinf => some .ninf
  | .ninf, .ninf => some .pinf

/-- Division by the positive finite `Decimal("100")`. -/
def PyDec.div100 : PyDec → Option PyDec
  | .snan => none
  | .qnan => some .qnan
  | .fin a => some (.fin a.div100C)
  | .pinf => some .pinf
  | .ninf => some .ninf

/-- `value.quantize(Decimal("0.01"), rounding=ROUND_HALF_UP)`: quantizing an
infinity (or an sNaN) signals `InvalidOperation`, as does a finite value
whose quantized coefficient overflows the precision; a quiet NaN
propagates. -/
def PyDec.quantize2HU : PyDec → Option PyDec
  | .snan => none
  | .qnan => some .qnan
  | .pinf => none
  | .ninf => none
  | .fin a => (Decimal.quantizeOptHU 2 a).map PyDec.fin

/-- Python `Decimal` addition on the value kinds: `∞ + (−∞)` and sNaN signal
`InvalidOperation`. -/
def PyDec.add : PyDec → PyDec → Option PyDec
  | .snan, _ => none
  | _, .snan => none
  | .qnan, _ => some .qnan
  | _, .qnan => some .qnan
  | .fin a, .fin b => some (.fin (a.addC b))
  | .fin _, .pinf => some .pinf
  | .fin _, .ninf => some .ninf
  | .pinf, .fin _ => some .pinf
  | .ninf, .fin _ => some .ninf
  | .pinf, .pinf => some .pinf
  | .ninf, .ninf => some .ninf
  | .pinf, .ninf => none
  | .ninf, .pinf => none

/-- `Decimal` negation on the value kinds. -/
def PyDec.neg : PyDec → PyDec
  | .fin a => .fin a.neg
  | .pinf => .ninf
  | .ninf => .pinf
  | .qnan => .qnan
  | .snan => .snan

/-- `Decimal` subtraction on the value kinds. -/
def PyDec.sub (a b : PyDec) : Option PyDec :=
  a.add b.neg

/-- The four amounts computed and displayed by `_update_totals`. -/
structure UpdateOutcome where
  base_amount : Decimal
  vat_amount : PyDec
  withholding_amount : PyDec
  total_amount : PyDec
deriving DecidableEq

/-- `_update_totals` (the spec's `computeTotals`): sum the line totals, parse
the two rate texts through `_safe_rate`, round the two amounts, combine.
`none` models an uncaught exception of the computation (the label formatting
that follows never raises on the values that reach it: finite amounts and
quiet NaNs format without signalling). -/
def update_totals_pd (items : List InvoiceItem) (vat_rate withholding_rate : PyDec) :
    Option UpdateOutcome := do
  let base ← base_sum ⟨0, 0⟩ items
  let vat_amount ← PyDec.quantize2HU (← PyDec.div100 (← PyDec.mul (.fin base) vat_rate))
  let withholding_amount ←
    PyDec.quantize2HU (← PyDec.div100 (← PyDec.mul (.fin base) withholding_rate))
  let running_sum ← PyDec.add (.fin base) vat_amount
  let total_amount ← PyDec.sub running_sum withholding_amount
  some ⟨base, vat_amount, withholding_amount, total_amount⟩

/-- `_update_totals` on the raw rate texts: parse both through
`_safe_rate`, then run the arithmetic. -/
def update_totals (items : List InvoiceItem) (vat_text withholding_text : String) :
    Option UpdateOutcome :=
  update_totals_pd items (safe_rate vat_text) (safe_rate withholding_text)

/-- Exactly two digits, for a fractional part `f < 100`. -/
def fixed2 (f : ℕ) : List Char :=
  [digitOfNat (f / 10 % 10), digitOfNat (f % 10)]

/-- Exactly three digits, for a fractional part `f < 1000`. -/
def fixed3 (f : ℕ) : List Char :=
  [digitOfNat (f / 100 % 10), digitOfNat (f / 10 % 10), digitOfNat (f % 10)]

/-- Python `text.rstrip(c)` for a single character. -/
def rstripChar (c : Char) (l : List Char) : List Char :=
  ((l.reverse).dropWhile (fun x => x == c)).reverse

/-- `text.rstrip("0").rstrip(".")` of the formatters. -/
def strip_zeros_dot (l : List Char) : List Char :=
  rstripChar '.' (rstripChar '0' l)

/-- `_format_currency`: quantize half-up to 2 decimals, fixed two-decimal
rendering, decimal point replaced by a comma. -/
def format_currency (d : Decimal) : Option String :=
  (Decimal.quantizeOptHU 2 d).map (fun q =>
    ⟨((if d.man < 0 then ['-'] else [])
        ++ natDigits (q.man.natAbs / 100) ++ '.' :: fixed2 (q.man.natAbs % 100)).map dotToComma⟩)

/-- `_format_quantity`: quantize half-up to 3 decimals, render fixed-point,
strip trailing zeros then a trailing point, `"0"` if empty, comma for the
point. -/
def format_quantity (d : Decimal) : Option String :=
  (Decimal.quantizeOptHU 3 d).map (fun q =>
    let raw := (if d.man < 0 then ['-'] else [])
        ++ natDigits (q.man.natAbs / 1000) ++ '.' :: fixed3 (q.man.natAbs % 1000)
    let t := strip_zeros_dot raw
    ⟨(if t.isEmpty then ['0'] else t).map dotToComma⟩)

/-- `_format_rate`: quantize to 2 decimals under the default context
(half-even), strip trailing zeros then a trailing point, `"0"` if empty,
comma for the point, `%` appended. -/
def format_rate (d : Decimal) : Option String :=
  (Decimal.quantizeOptHE 2 d).map (fun q =>
    let raw := (if d.man < 0 then ['-'] else [])
        ++ natDigits (q.man.natAbs / 100) ++ '.' :: fixed2 (q.man.natAbs % 100)
    let t := strip_zeros_dot raw
    ⟨((if t.isEmpty then ['0'] else t).map dotToComma) ++ ['%']⟩)

/-- The currency rendering as the specification words it: round-half-up to 2
decimals, fixed two-decimal representation, decimal point replaced by comma,
no thousands separator. -/
def format_currency_spec (d : Decimal) : String :=
  let n := (rhuInt (|d.toRat| * 10 ^ 2)).toNat
  ⟨(if d.toRat < 0 then ['-'] else []) ++ natDigits (n / 100) ++ ',' :: fixed2 (n % 100)⟩

/-- The rate rendering as the specification words it: round to 2 decimals
with the default (half-even) rounding, strip trailing zeros and a trailing
point, comma for the point, `%` appended. -/
def format_rate_spec (d : Decimal) : String :=
  let n := (rheInt (|d.toRat| * 10 ^ 2)).toNat
  let raw := (if d.toRat < 0 then ['-'] else [])
      ++ natDigits (n / 100) ++ '.' :: fixed2 (n % 100)
  let t := strip_zeros_dot raw
  ⟨((if t.isEmpty then ['0'] else t).map dotToComma) ++ ['%']⟩

/-- Python `text.strip()`. -/
def pyTrim (s : String) : String :=
  ⟨pyStrip s.data⟩

/-- Outcome of `_add_item`: a parse failure of quantity/price (error box,
nothing added), an empty trimmed description (error box, nothing added), or a
successful append.  `addedNonFin` marks the case where both parses succeed
but yield a non-finite `Decimal` (e.g. `"inf"`): the source appends such an
item and then signals while rendering its table row; the appended item lies
outside the finite item model, so only the marker is recorded. -/
inductive AddOutcome where
  | parseError
  | validationError
  | added
  | addedNonFin
deriving DecidableEq

/-- `_add_item`: parse quantity and unit price (error box on failure), check
the trimmed description is nonempty (error box otherwise), then append the
item built from the parsed values and the trimmed description. -/
def add_item (items : List InvoiceItem) (quantity_text description_text unit_price_text : String) :
    AddOutcome × List InvoiceItem :=
  match parse_decimal quantity_text, parse_decimal unit_price_text with
  | some (.fin q), some (.fin p) =>
      if pyTrim description_text = "" then (.validationError, items)
      else (.added, items ++ [⟨q, pyTrim description_text, p⟩])
  | some _, some _ =>
      if pyTrim description_text = "" then (.validationError, items)
      else (.addedNonFin, items)
  | _, _ => (.parseError, items)

/-- A mantissa of the numeric grammar: digits and points only, at most one
point, at least one digit. -/
def mantOk (l : List Char) : Bool :=
  l.all (fun c => c.isDigit || c == '.') && decide (l.countP (fun c => c == '.') ≤ 1)
    && l.any Char.isDigit

/-- Everything except an exponent marker: the mantissa of a numeric literal
is its longest `notE` prefix. -/
def notE (c : Char) : Bool :=
  !(c == 'e' || c == 'E')

/-- The numeric alternative of the grammar, recognised independently of the
evaluating parser: split at the first exponent marker; before it a valid
mantissa, after it (when present) an optional sign and a nonempty digit
run. -/
def numericOk (l : List Char) : Bool :=
  let rest := l.dropWhile notE
  mantOk (l.takeWhile notE) &&
  (rest.isEmpty || (!(dropSignL rest.tail).2.isEmpty && (dropSignL rest.tail).2.all Char.isDigit))

/-- The full `Decimal` grammar: an optional sign, then the numeric form or a
keyword form. -/
def valid_decimal_literal (l : List Char) : Bool :=
  numericOk (dropSignL l).2 || (keywordKind (dropSignL l).2).isSome

/-- What the `Decimal` string constructor accepts at the modelled character
scope: underscores are removed anywhere in the text, and the remainder must
be of the literal grammar. -/
def decimal_literal_ok (l : List Char) : Bool :=
  valid_decimal_literal (l.filter (fun c => !(c == '_')))

lemma Rat.floor_eq_intFloor (q : ℚ) : q.floor = ⌊q⌋ :=
  (Rat.floor_def' q).trans Rat.floor_def.symm

lemma natDigitsAux_length_le {fuel n k : ℕ} (hf : n < fuel) (h1 : 1 ≤ k)
    (h : n < 10 ^ k) : (natDigitsAux fuel n).length ≤ k := by
  induction fuel generalizing n k with
  | zero => omega
  | succ fuel ih =>
      unfold natDigitsAux
      by_cases h10 : n < 10
      · rw [if_pos h10]
        exact h1
      · rw [if_neg h10, List.length_append]
        have hk2 : 2 ≤ k := by
          rcases Nat.lt_or_ge k 2 with hk | hk
          · exfalso
            have hk1 : k = 1 := by omega
            rw [hk1, pow_one] at h
            omega
          · exact hk
        have hd : n / 10 < 10 ^ (k - 1) := by
          have hpow : 10 ^ k = 10 ^ (k - 1) * 10 := by
            rw [← pow_succ]
            congr 1
            omega
          rw [hpow] at h
          omega
        have ihx : (natDigitsAux fuel (n / 10)).length ≤ k - 1 :=
          ih (by omega) (by omega) hd
        have hone : ([digitOfNat (n % 10)] : List Char).length = 1 := rfl
        omega

lemma natDigits_length_le {n : ℕ} (h : n < 10 ^ 28) : (natDigits n).length ≤ 28 :=
  natDigitsAux_length_le (Nat.lt_succ_self n) (by norm_num) h

lemma ctxRound_eq_self {d : Decimal} (h : d.man.natAbs < 10 ^ 28) : ctxRound d = d := by
  unfold ctxRound
  exact if_pos (natDigits_length_le h)

lemma Decimal.mulC_eq_mul {a b : Decimal} (h : (a.mul b).man.natAbs < 10 ^ 28) :
    a.mulC b = a.mul b :=
  ctxRound_eq_self h

lemma Decimal.addC_eq_add {a b : Decimal} (h : (a.add b).man.natAbs < 10 ^ 28) :
    a.addC b = a.add b :=
  ctxRound_eq_self h

lemma Decimal.div100C_eq_div100 {a : Decimal} (h : a.man.natAbs < 10 ^ 28) :
    a.div100C = a.div100 :=
  ctxRound_eq_self h

lemma Decimal.quantizeOptHU_pos {n : ℕ} {d : Decimal}
    (h : (Decimal.quantizeHU n d).man.natAbs < 10 ^ 28) :
    Decimal.quantizeOptHU n d = some (Decimal.quantizeHU n d) := by
  unfold Decimal.quantizeOptHU
  exact if_pos h

lemma Decimal.quantizeOptHE_pos {n : ℕ} {d : Decimal}
    (h : (Decimal.quantizeHE n d).man.natAbs < 10 ^ 28) :
    Decimal.quantizeOptHE n d = some (Decimal.quantizeHE n d) := by
  unfold Decimal.quantizeOptHE
  exact if_pos h

lemma option_bind_some {α β : Type} (a : α) (f : α → Option β) :
    (some a : Option α) >>= f = f a :=
  rfl

lemma InvoiceItem.totalOpt_eq {it : InvoiceItem}
    (h1 : (it.quantity.mul it.unit_price).man.natAbs < 10 ^ 28)
    (h2 : (Decimal.quantizeHU 2 (it.quantity.mul it.unit_price)).man.natAbs < 10 ^ 28) :
    it.totalOpt = some it.total := by
  show Decimal.quantizeOptHU 2 (it.quantity.mulC it.unit_price) = some it.total
  rw [Decimal.mulC_eq_mul h1, Decimal.quantizeOptHU_pos h2]
  rfl

lemma Decimal.toRat_mul (a b : Decimal) : (a.mul b).toRat = a.toRat * b.toRat := by
  unfold Decimal.mul Decimal.toRat
  push_cast
  rw [pow_add]
  ring

lemma Decimal.toRat_neg (a : Decimal) : a.neg.toRat = -a.toRat := by
  unfold Decimal.neg Decimal.toRat
  push_cast
  ring

lemma Decimal.toRat_add (a b : Decimal) : (a.add b).toRat = a.toRat + b.toRat := by
  unfold Decimal.add Decimal.toRat
  have ha : (10 : ℚ) ^ (max a.exp b.exp - a.exp) * 10 ^ a.exp = 10 ^ max a.exp b.exp := by
    rw [← pow_add, Nat.sub_add_cancel (le_max_left _ _)]
  have hb : (10 : ℚ) ^ (max a.exp b.exp - b.exp) * 10 ^ b.exp = 10 ^ max a.exp b.exp := by
    rw [← pow_add, Nat.sub_add_cancel (le_max_right _ _)]
  have h10 : ∀ k : ℕ, ((10 : ℚ) ^ k) ≠ 0 := fun k => pow_ne_zero k (by norm_num)
  field_simp
  have hsplit : ((a.man : ℚ) * 10 ^ (max a.exp b.exp - a.exp)
        + (b.man : ℚ) * 10 ^ (max a.exp b.exp - b.exp)) * (10 ^ a.exp * 10 ^ b.exp)
      = (a.man : ℚ) * (10 ^ (max a.exp b.exp - a.exp) * 10 ^ a.exp) * 10 ^ b.exp
        + (b.man : ℚ) * (10 ^ (max a.exp b.exp - b.exp) * 10 ^ b.exp) * 10 ^ a.exp := by
    ring
  rw [hsplit, ha, hb]
  ring

lemma Decimal.toRat_sub (a b : Decimal) : (a.sub b).toRat = a.toRat - b.toRat := by
  rw [Decimal.sub, Decimal.toRat_add, Decimal.toRat_neg]
  ring

lemma Decimal.toRat_div100 (a : Decimal) : a.div100.toRat = a.toRat / 100 := by
  unfold Decimal.div100 Decimal.toRat
  rw [pow_add]
  push_cast
  ring

lemma pow10_pos (k : ℕ) : (0 : ℚ) < 10 ^ k := by positivity

lemma rhuInt_intCast (z : ℤ) : rhuInt (z : ℚ) = z := by
  have hhalf : ⌊(1 : ℚ) / 2⌋ = 0 := by norm_num
  unfold rhuInt
  split
  · rw [Rat.floor_eq_intFloor, Int.floor_int_add, hhalf, add_zero]
  · have hneg : -(z : ℚ) = ((-z : ℤ) : ℚ) := by push_cast; ring
    rw [Rat.floor_eq_intFloor, hneg, Int.floor_int_add, hhalf, add_zero, neg_neg]

lemma rhuNat_cast_eq (a k : ℕ) (hk : 1 ≤ k) :
    (rhuNat a (10 ^ k) : ℤ) = ⌊(a : ℚ) / 10 ^ k + 1 / 2⌋ := by
  have hdvd : 2 ∣ (10 : ℕ) ^ k := dvd_pow (by norm_num) (by omega)
  have h2 : (10 : ℕ) ^ k / 2 * 2 = 10 ^ k := Nat.div_mul_cancel hdvd
  have hhalf : (((10 : ℕ) ^ k / 2 : ℕ) : ℚ) = (10 : ℚ) ^ k / 2 := by
    have h2' := congrArg (fun m : ℕ => (m : ℚ)) h2
    push_cast at h2'
    linarith
  have hval : (a : ℚ) / 10 ^ k + 1 / 2 = ((a + 10 ^ k / 2 : ℕ) : ℚ) / ((10 ^ k : ℕ) : ℚ) := by
    push_cast
    rw [hhalf]
    have hne : ((10 : ℚ) ^ k) ≠ 0 := ne_of_gt (pow10_pos k)
    rw [eq_div_iff hne, add_mul, div_mul_cancel₀ _ hne]
    ring
  rw [hval, Rat.floor_natCast_div_natCast]
  rfl

lemma rhuInt_nonneg_div (a k : ℕ) (hk : 1 ≤ k) :
    rhuInt ((a : ℚ) / 10 ^ k) = (rhuNat a (10 ^ k) : ℤ) := by
  unfold rhuInt
  rw [if_pos (div_nonneg (by positivity) (le_of_lt (pow10_pos k))),
    Rat.floor_eq_intFloor, rhuNat_cast_eq a k hk]

lemma rhuInt_neg (x : ℚ) : rhuInt (-x) = -rhuInt x := by
  rcases lt_trichotomy x 0 with hx | hx | hx
  · rw [rhuInt, rhuInt, if_pos (by linarith), if_neg (not_le.mpr hx), neg_neg]
  · subst hx
    have h0 : rhuInt 0 = 0 := by
      unfold rhuInt
      rw [if_pos le_rfl, Rat.floor_eq_intFloor]
      norm_num
    rw [neg_zero, h0]
    ring
  · rw [rhuInt, rhuInt, if_neg (not_le.mpr (by linarith)), if_pos (le_of_lt hx), neg_neg]

lemma Decimal.toRat_mul_pow_of_le {d : Decimal} {n : ℕ} (he : d.exp ≤ n) :
    d.toRat * 10 ^ n = ((d.man * 10 ^ (n - d.exp) : ℤ) : ℚ) := by
  unfold Decimal.toRat
  have hpow : (10 : ℚ) ^ n = 10 ^ (n - d.exp) * 10 ^ d.exp := by
    rw [← pow_add, Nat.sub_add_cancel he]
  rw [hpow]
  have hne : ((10 : ℚ) ^ d.exp) ≠ 0 := ne_of_gt (pow10_pos _)
  push_cast
  field_simp
  ring

lemma Decimal.toRat_mul_pow_of_gt {d : Decimal} {n : ℕ} (he : n < d.exp) :
    d.toRat * 10 ^ n = (d.man : ℚ) / 10 ^ (d.exp - n) := by
  unfold Decimal.toRat
  have hpow : (10 : ℚ) ^ d.exp = 10 ^ (d.exp - n) * 10 ^ n := by
    rw [← pow_add]
    congr 1
    omega
  rw [hpow]
  have h1 : ((10 : ℚ) ^ (d.exp - n)) ≠ 0 := ne_of_gt (pow10_pos _)
  have h2 : ((10 : ℚ) ^ n) ≠ 0 := ne_of_gt (pow10_pos _)
  field_simp
  ring

lemma Decimal.man_quantizeHU (n : ℕ) (d : Decimal) :
    (Decimal.quantizeHU n d).man = rhuInt (d.toRat * 10 ^ n) := by
  unfold Decimal.quantizeHU
  by_cases he : d.exp ≤ n
  · rw [if_pos he, Decimal.toRat_mul_pow_of_le he, rhuInt_intCast]
  · push_neg at he
    by_cases hm : 0 ≤ d.man
    · rw [if_neg (not_le.mpr he), if_pos hm, Decimal.toRat_mul_pow_of_gt he]
      have ha : (d.man : ℚ) = ((d.man.toNat : ℕ) : ℚ) := by exact_mod_cast (Int.toNat_of_nonneg hm).symm
      rw [ha, rhuInt_nonneg_div _ _ (by omega)]
    · rw [if_neg (not_le.mpr he), if_neg hm, Decimal.toRat_mul_pow_of_gt he]
      push_neg at hm
      have ha : (d.man : ℚ) = -((d.man.natAbs : ℕ) : ℚ) := by
        rw [Int.cast_natAbs, abs_of_neg hm]
        push_cast
        ring
      rw [ha, neg_div, rhuInt_neg, rhuInt_nonneg_div _ _ (by omega)]

lemma Decimal.exp_quantizeHU (n : ℕ) (d : Decimal) : (Decimal.quantizeHU n d).exp = n := by
  unfold Decimal.quantizeHU
  split
  · rfl
  · split <;> rfl

lemma Decimal.toRat_quantizeHU (n : ℕ) (d : Decimal) :
    (Decimal.quantizeHU n d).toRat = round_half_up n d.toRat := by
  rw [Decimal.toRat, Decimal.man_quantizeHU, Decimal.exp_quantizeHU, round_half_up]

lemma rheNat_cast_eq (a k : ℕ) :
    (rheNat a (10 ^ k) : ℤ) = rheAux ((a : ℚ) / 10 ^ k) := by
  have hs : 0 < (10 : ℕ) ^ k := pow_pos (by norm_num) k
  have hsq : (0 : ℚ) < 10 ^ k := pow10_pos k
  have hfloor : ((a : ℚ) / 10 ^ k).floor = ((a / 10 ^ k : ℕ) : ℤ) := by
    have hc : (((10 : ℕ) ^ k : ℕ) : ℚ) = (10 : ℚ) ^ k := by push_cast; ring
    rw [Rat.floor_eq_intFloor, ← hc, Rat.floor_natCast_div_natCast]
    exact (Int.ofNat_tdiv a (10 ^ k)).symm
  have hfrac : (a : ℚ) / 10 ^ k - (((a : ℚ) / 10 ^ k).floor : ℚ)
      = ((a % 10 ^ k : ℕ) : ℚ) / 10 ^ k := by
    have h := Nat.div_add_mod a (10 ^ k)
    have h' := congrArg (fun m : ℕ => (m : ℚ)) h
    push_cast at h'
    have hq : ((((a / 10 ^ k : ℕ) : ℤ)) : ℚ) = ((a / 10 ^ k : ℕ) : ℚ) :=
      Int.cast_natCast _
    have hne : ((10 : ℚ) ^ k) ≠ 0 := ne_of_gt hsq
    rw [hfloor, hq, eq_div_iff hne, sub_mul, div_mul_cancel₀ _ hne]
    linarith
  have hlt : ((a : ℚ) / 10 ^ k - (((a : ℚ) / 10 ^ k).floor : ℚ) < 1 / 2)
      ↔ a % 10 ^ k * 2 < 10 ^ k := by
    rw [hfrac, div_lt_div_iff₀ hsq two_pos, one_mul]
    exact_mod_cast Iff.rfl
  have hgt : (1 / 2 < (a : ℚ) / 10 ^ k - (((a : ℚ) / 10 ^ k).floor : ℚ))
      ↔ 10 ^ k < a % 10 ^ k * 2 := by
    rw [hfrac, div_lt_div_iff₀ two_pos hsq, one_mul]
    exact_mod_cast Iff.rfl
  have hpar : (((a : ℚ) / 10 ^ k).floor % 2 = 0) ↔ a / 10 ^ k % 2 = 0 := by
    rw [hfloor]
    constructor
    · intro h; exact_mod_cast h
    · intro h; exact_mod_cast h
  unfold rheNat rheAux
  by_cases h1 : a % 10 ^ k * 2 < 10 ^ k
  · rw [if_pos h1, if_pos (hlt.mpr h1), hfloor]
  · rw [if_neg h1, if_neg (fun hc => h1 (hlt.mp hc))]
    by_cases h2 : 10 ^ k < a % 10 ^ k * 2
    · rw [if_pos h2, if_pos (hgt.mpr h2), hfloor]
      push_cast
      ring
    · rw [if_neg h2, if_neg (fun hc => h2 (hgt.mp hc))]
      by_cases h3 : a / 10 ^ k % 2 = 0
      · rw [if_pos h3, if_pos (hpar.mpr h3), hfloor]
      · rw [if_neg h3, if_neg (fun hc => h3 (hpar.mp hc)), hfloor]
        push_cast
        ring

lemma rheAux_intCast (z : ℤ) : rheAux (z : ℚ) = z := by
  unfold rheAux
  have hf : ((z : ℚ)).floor = z := by
    rw [Rat.floor_eq_intFloor]
    exact Int.floor_intCast z
  rw [hf, if_pos (by norm_num)]

lemma rheInt_intCast (z : ℤ) : rheInt (z : ℚ) = z := by
  unfold rheInt
  split
  · exact rheAux_intCast z
  · have hneg : -(z : ℚ) = ((-z : ℤ) : ℚ) := by push_cast; ring
    rw [hneg, rheAux_intCast, neg_neg]

lemma rheInt_nonneg_div (a k : ℕ) :
    rheInt ((a : ℚ) / 10 ^ k) = (rheNat a (10 ^ k) : ℤ) := by
  unfold rheInt
  rw [if_pos (div_nonneg (by positivity) (le_of_lt (pow10_pos k))), rheNat_cast_eq]

lemma rheInt_neg (x : ℚ) : rheInt (-x) = -rheInt x := by
  rcases lt_trichotomy x 0 with hx | hx | hx
  · rw [rheInt, rheInt, if_pos (by linarith), if_neg (not_le.mpr hx), neg_neg]
  · subst hx
    rw [neg_zero]
    have h0 : rheInt 0 = 0 := by
      have := rheInt_intCast 0
      simpa using this
    rw [h0]
    ring
  · rw [rheInt, rheInt, if_neg (not_le.mpr (by linarith)), if_pos (le_of_lt hx), neg_neg]

lemma Decimal.man_quantizeHE (n : ℕ) (d : Decimal) :
    (Decimal.quantizeHE n d).man = rheInt (d.toRat * 10 ^ n) := by
  unfold Decimal.quantizeHE
  by_cases he : d.exp ≤ n
  · rw [if_pos he, Decimal.toRat_mul_pow_of_le he, rheInt_intCast]
  · push_neg at he
    by_cases hm : 0 ≤ d.man
    · rw [if_neg (not_le.mpr he), if_pos hm, Decimal.toRat_mul_pow_of_gt he]
      have ha : (d.man : ℚ) = ((d.man.toNat : ℕ) : ℚ) := by
        exact_mod_cast (Int.toNat_of_nonneg hm).symm
      rw [ha, rheInt_nonneg_div]
    · rw [if_neg (not_le.mpr he), if_neg hm, Decimal.toRat_mul_pow_of_gt he]
      push_neg at hm
      have ha : (d.man : ℚ) = -((d.man.natAbs : ℕ) : ℚ) := by
        rw [Int.cast_natAbs, abs_of_neg hm]
        push_cast
        ring
      rw [ha, neg_div, rheInt_neg, rheInt_nonneg_div]

lemma Decimal.exp_quantizeHE (n : ℕ) (d : Decimal) : (Decimal.quantizeHE n d).exp = n := by
  unfold Decimal.quantizeHE
  split
  · rfl
  · split <;> rfl

lemma Decimal.toRat_quantizeHE (n : ℕ) (d : Decimal) :
    (Decimal.quantizeHE n d).toRat = round_half_even n d.toRat := by
  rw [Decimal.toRat, Decimal.man_quantizeHE, Decimal.exp_quantizeHE, round_half_even]

lemma round_half_up_two_eq (x : ℚ) :
    round_half_up 2 x = (rhuInt (x * 100) : ℚ) / 100 := by
  unfold round_half_up
  norm_num

lemma base_of_cents (items : List InvoiceItem) :
    ∃ k : ℤ, (base_of items).toRat = (k : ℚ) / 100 := by
  suffices h : ∀ (l : List InvoiceItem) (a : Decimal), (∃ k : ℤ, a.toRat = (k : ℚ) / 100) →
      ∃ k : ℤ, (l.foldl (fun acc it => acc.add it.total) a).toRat = (k : ℚ) / 100 by
    exact h items ⟨0, 0⟩ ⟨0, by rw [Decimal.toRat]; norm_num⟩
  intro l
  induction l with
  | nil => intro a ha; exact ha
  | cons it l ih =>
      intro a ha
      obtain ⟨k, hk⟩ := ha
      refine ih (a.add it.total) ⟨k + rhuInt ((it.quantity.mul it.unit_price).toRat * 100), ?_⟩
      rw [Decimal.toRat_add, hk, InvoiceItem.total, Decimal.toRat_quantizeHU,
        round_half_up_two_eq]
      push_cast
      ring

lemma base_sum_exact (items : List InvoiceItem) :
    ∀ acc : Decimal, items.all item_small = true → sums_small acc items = true →
      base_sum acc items = some (items.foldl (fun a it => a.add it.total) acc) := by
  induction items with
  | nil =>
      intro acc _ _
      rfl
  | cons it rest ih =>
      intro acc hall hsum
      rw [List.all_cons, Bool.and_eq_true] at hall
      have hone := hall.1
      simp only [item_small, Bool.and_eq_true] at hone
      simp only [sums_small, Bool.and_eq_true] at hsum
      show (match it.totalOpt with
        | some t => base_sum (Decimal.addC acc t) rest
        | none => none) = _
      rw [InvoiceItem.totalOpt_eq (of_decide_eq_true hone.1) (of_decide_eq_true hone.2)]
      show base_sum (Decimal.addC acc it.total) rest = _
      rw [Decimal.addC_eq_add (of_decide_eq_true hsum.1), List.foldl_cons]
      exact ih (acc.add it.total) hall.2 hsum.2

lemma update_totals_pd_exact (items : List InvoiceItem) (vat wh : Decimal)
    (hall : items.all item_small = true)
    (hsums : sums_small ⟨0, 0⟩ items = true)
    (hv1 : ((base_of items).mul vat).man.natAbs < 10 ^ 28)
    (hv2 : (Decimal.quantizeHU 2 (((base_of items).mul vat).div100)).man.natAbs < 10 ^ 28)
    (hw1 : ((base_of items).mul wh).man.natAbs < 10 ^ 28)
    (hw2 : (Decimal.quantizeHU 2 (((base_of items).mul wh).div100)).man.natAbs < 10 ^ 28)
    (ht1 : ((base_of items).add
        (Decimal.quantizeHU 2 (((base_of items).mul vat).div100))).man.natAbs < 10 ^ 28)
    (ht2 : (((base_of items).add
        (Decimal.quantizeHU 2 (((base_of items).mul vat).div100))).sub
          (Decimal.quantizeHU 2 (((base_of items).mul wh).div100))).man.natAbs < 10 ^ 28) :
    update_totals_pd items (.fin vat) (.fin wh)
      = some ⟨(update_totals_val items vat wh).base_amount,
          .fin (update_totals_val items vat wh).vat_amount,
          .fin (update_totals_val items vat wh).withholding_amount,
          .fin (update_totals_val items vat wh).total_amount⟩ := by
  have hbase : base_sum ⟨0, 0⟩ items = some (base_of items) :=
    base_sum_exact items ⟨0, 0⟩ hall hsums
  have hm1 : PyDec.mul (.fin (base_of items)) (.fin vat)
      = some (.fin ((base_of items).mul vat)) := by
    show some (PyDec.fin ((base_of items).mulC vat))
        = some (PyDec.fin ((base_of items).mul vat))
    rw [Decimal.mulC_eq_mul hv1]
  have hd1 : PyDec.div100 (.fin ((base_of items).mul vat))
      = some (.fin (((base_of items).mul vat).div100)) := by
    show some (PyDec.fin (((base_of items).mul vat).div100C))
        = some (PyDec.fin (((base_of items).mul vat).div100))
    rw [Decimal.div100C_eq_div100 hv1]
  have hq1 : PyDec.quantize2HU (.fin (((base_of items).mul vat).div100))
      = some (.fin (Decimal.quantizeHU 2 (((base_of items).mul vat).div100))) := by
    show (Decimal.quantizeOptHU 2 (((base_of items).mul vat).div100)).map PyDec.fin = _
    rw [Decimal.quantizeOptHU_pos hv2, Option.map_some']
  have hm2 : PyDec.mul (.fin (base_of items)) (.fin wh)
      = some (.fin ((base_of items).mul wh)) := by
    show some (PyDec.fin ((base_of items).mulC wh))
        = some (PyDec.fin ((base_of items).mul wh))
    rw [Decimal.mulC_eq_mul hw1]
  have hd2 : PyDec.div100 (.fin ((base_of items).mul wh))
      = some (.fin (((base_of items).mul wh).div100)) := by
    show some (PyDec.fin (((base_of items).mul wh).div100C))
        = some (PyDec.fin (((base_of items).mul wh).div100))
    rw [Decimal.div100C_eq_div100 hw1]
  have hq2 : PyDec.quantize2HU (.fin (((base_of items).mul wh).div100))
      = some (.fin (Decimal.quantizeHU 2 (((base_of items).mul wh).div100))) := by
    show (Decimal.quantizeOptHU 2 (((base_of items).mul wh).div100)).map PyDec.fin = _
    rw [Decimal.quantizeOptHU_pos hw2, Option.map_some']
  have ha1 : PyDec.add (.fin (base_of items))
        (.fin (Decimal.quantizeHU 2 (((base_of items).mul vat).div100)))
      = some (.fin ((base_of items).add
          (Decimal.quantizeHU 2 (((base_of items).mul vat).div100)))) := by
    show some (PyDec.fin (Decimal.addC (base_of items)
          (Decimal.quantizeHU 2 (((base_of items).mul vat).div100))))
        = some (PyDec.fin ((base_of items).add
            (Decimal.quantizeHU 2 (((base_of items).mul vat).div100))))
    rw [Decimal.addC_eq_add ht1]
  have hs1 : PyDec.sub
        (.fin ((base_of items).add (Decimal.quantizeHU 2 (((base_of items).mul vat).div100))))
        (.fin (Decimal.quantizeHU 2 (((base_of items).mul wh).div100)))
      = some (.fin (((base_of items).add
            (Decimal.quantizeHU 2 (((base_of items).mul vat).div100))).sub
          (Decimal.quantizeHU 2 (((base_of items).mul wh).div100)))) := by
    show some (PyDec.fin (Decimal.addC
          ((base_of items).add (Decimal.quantizeHU 2 (((base_of items).mul vat).div100)))
          (Decimal.quantizeHU 2 (((base_of items).mul wh).div100)).neg))
        = some (PyDec.fin (((base_of items).add
              (Decimal.quantizeHU 2 (((base_of items).mul vat).div100))).sub
            (Decimal.quantizeHU 2 (((base_of items).mul wh).div100))))
    rw [Decimal.addC_eq_add ht2]
    rfl
  simp only [update_totals_pd, hbase, option_bind_some, hm1, hd1, hq1, hm2, hd2, hq2,
    ha1, hs1]
  rfl

/-- C1 (amended): for every item list and pair of already-parsed rate values
whose computation keeps every intermediate coefficient below the context
precision of 28 digits, `_update_totals` raises nothing and rounds the VAT
amount and the withholding amount each independently, half-up to 2 decimal
places, sets `total = base + vat_amount - withholding_amount` with no
further rounding, and that total is an exact multiple of one cent.  Without
the precision provisos the claim fails: see the counterexample, where the
trapped `InvalidOperation` of `quantize` aborts the computation. -/
theorem c1_compute_totals_componentwise (items : List InvoiceItem) (vat wh : Decimal)
    (hall : items.all item_small = true)
    (hsums : sums_small ⟨0, 0⟩ items = true)
    (hv1 : ((base_of items).mul vat).man.natAbs < 10 ^ 28)
    (hv2 : (Decimal.quantizeHU 2 (((base_of items).mul vat).div100)).man.natAbs < 10 ^ 28)
    (hw1 : ((base_of items).mul wh).man.natAbs < 10 ^ 28)
    (hw2 : (Decimal.quantizeHU 2 (((base_of items).mul wh).div100)).man.natAbs < 10 ^ 28)
    (ht1 : ((base_of items).add
        (Decimal.quantizeHU 2 (((base_of items).mul vat).div100))).man.natAbs < 10 ^ 28)
    (ht2 : (((base_of items).add
        (Decimal.quantizeHU 2 (((base_of items).mul vat).div100))).sub
          (Decimal.quantizeHU 2 (((base_of items).mul wh).div100))).man.natAbs < 10 ^ 28) :
    update_totals_pd items (.fin vat) (.fin wh)
        = some ⟨(update_totals_val items vat wh).base_amount,
            .fin (update_totals_val items vat wh).vat_amount,
            .fin (update_totals_val items vat wh).withholding_amount,
            .fin (update_totals_val items vat wh).total_amount⟩ ∧
    (update_totals_val items vat wh).vat_amount.toRat
        = round_half_up 2 ((update_totals_val items vat wh).base_amount.toRat * vat.toRat / 100) ∧
    (update_totals_val items vat wh).withholding_amount.toRat
        = round_half_up 2 ((update_totals_val items vat wh).base_amount.toRat * wh.toRat / 100) ∧
    (update_totals_val items vat wh).total_amount.toRat
        = (update_totals_val items vat wh).base_amount.toRat
          + (update_totals_val items vat wh).vat_amount.toRat
          - (update_totals_val items vat wh).withholding_amount.toRat ∧
    ∃ k : ℤ, (update_totals_val items vat wh).total_amount.toRat = (k : ℚ) / 100 := by
  refine ⟨update_totals_pd_exact items vat wh hall hsums hv1 hv2 hw1 hw2 ht1 ht2, ?_⟩
  have hb : (update_totals_val items vat wh).base_amount = base_of items := rfl
  have hv : (update_totals_val items vat wh).vat_amount
      = Decimal.quantizeHU 2 (((base_of items).mul vat).div100) := rfl
  have hw : (update_totals_val items vat wh).withholding_amount
      = Decimal.quantizeHU 2 (((base_of items).mul wh).div100) := rfl
  have ht : (update_totals_val items vat wh).total_amount
      = ((base_of items).add (Decimal.quantizeHU 2 (((base_of items).mul vat).div100))).sub
          (Decimal.quantizeHU 2 (((base_of items).mul wh).div100)) := rfl
  refine ⟨?_, ?_, ?_, ?_⟩
  · rw [hb, hv, Decimal.toRat_quantizeHU, Decimal.toRat_div100, Decimal.toRat_mul]
  · rw [hb, hw, Decimal.toRat_quantizeHU, Decimal.toRat_div100, Decimal.toRat_mul]
  · rw [hb, hv, hw, ht, Decimal.toRat_sub, Decimal.toRat_add]
  · rw [ht, Decimal.toRat_sub, Decimal.toRat_add]
    obtain ⟨k, hk⟩ := base_of_cents items
    refine ⟨k + rhuInt (((base_of items).mul vat).div100.toRat * 100)
        - rhuInt (((base_of items).mul wh).div100.toRat * 100), ?_⟩
    rw [hk, Decimal.toRat_quantizeHU, Decimal.toRat_quantizeHU,
      round_half_up_two_eq, round_half_up_two_eq]
    push_cast
    ring

theorem c1_compute_totals_componentwise_witness :
    ([⟨⟨3, 0⟩, "a", ⟨10, 2⟩⟩] : List InvoiceItem).all item_small = true ∧
    sums_small ⟨0, 0⟩ [⟨⟨3, 0⟩, "a", ⟨10, 2⟩⟩] = true ∧
    ((base_of [⟨⟨3, 0⟩, "a", ⟨10, 2⟩⟩]).mul ⟨21, 0⟩).man.natAbs < 10 ^ 28 ∧
    update_totals_pd [⟨⟨3, 0⟩, "a", ⟨10, 2⟩⟩] (.fin ⟨21, 0⟩) (.fin ⟨2, 0⟩)
      = some ⟨(update_totals_val [⟨⟨3, 0⟩, "a", ⟨10, 2⟩⟩] ⟨21, 0⟩ ⟨2, 0⟩).base_amount,
          .fin (update_totals_val [⟨⟨3, 0⟩, "a", ⟨10, 2⟩⟩] ⟨21, 0⟩ ⟨2, 0⟩).vat_amount,
          .fin (update_totals_val [⟨⟨3, 0⟩, "a", ⟨10, 2⟩⟩] ⟨21, 0⟩ ⟨2, 0⟩).withholding_amount,
          .fin (update_totals_val [⟨⟨3, 0⟩, "a", ⟨10, 2⟩⟩] ⟨21, 0⟩ ⟨2, 0⟩).total_amount⟩ :=
  ⟨by decide, by decide, by decide,
    (c1_compute_totals_componentwise [⟨⟨3, 0⟩, "a", ⟨10, 2⟩⟩] ⟨21, 0⟩ ⟨2, 0⟩
      (by decide) (by decide) (by decide) (by decide) (by decide) (by decide)
      (by decide) (by decide)).1⟩

/-- C1 counterexample: with one line of 1 × 1.00 (base 1.00) and the finite
parsed rate 1E+30, `_update_totals` signals the trapped `InvalidOperation`
in `quantize` — the cent coefficient would need more than 28 digits — so no
totals are produced and the unrestricted claim fails. -/
theorem c1_counterexample_precision :
    update_totals_pd [⟨⟨1, 0⟩, "x", ⟨100, 2⟩⟩]
        (.fin ⟨1000000000000000000000000000000, 0⟩) (.fin ⟨0, 0⟩)
      = none := by
  decide

/-- C2 (amended): whenever neither the exact product nor its cent
quantization overflows the 28-digit context precision, the line total of an
item is `quantity * unit_price` rounded half-up (ties away from zero) to 2
decimal places; in particular `lineTotal(2, 1.005) = 2.01`, and on the
genuine tie `1 * 1.005` the half-up rule yields `1.01` where banker's
(half-even) rounding would not.  Without the proviso the claim fails: see
the counterexample, where the context pre-rounds the product half-even. -/
theorem c2_line_total_half_up (it : InvoiceItem)
    (h1 : (it.quantity.mul it.unit_price).man.natAbs < 10 ^ 28)
    (h2 : (Decimal.quantizeHU 2 (it.quantity.mul it.unit_price)).man.natAbs < 10 ^ 28) :
    it.totalOpt = some it.total ∧
    it.total.toRat = round_half_up 2 (it.quantity.toRat * it.unit_price.toRat) ∧
    (InvoiceItem.mk ⟨2, 0⟩ "a" ⟨1005, 3⟩).totalOpt = some ⟨201, 2⟩ ∧
    (InvoiceItem.mk ⟨1, 0⟩ "a" ⟨1005, 3⟩).totalOpt = some ⟨101, 2⟩ ∧
    round_half_even 2 ((1005 : ℚ) / 1000) ≠ round_half_up 2 ((1005 : ℚ) / 1000) := by
  refine ⟨InvoiceItem.totalOpt_eq h1 h2, ?_, by decide, by decide, ?_⟩
  · rw [InvoiceItem.total, Decimal.toRat_quantizeHU, Decimal.toRat_mul]
  · have he : round_half_even 2 ((1005 : ℚ) / 1000) = 1 := by
      have hx : (1005 : ℚ) / 1000 * 10 ^ 2 = ((201 : ℤ) : ℚ) / ((2 : ℤ) : ℚ) := by norm_num
      rw [round_half_even, hx]
      norm_num [rheInt, rheAux, Rat.floor_eq_intFloor]
    have hu : round_half_up 2 ((1005 : ℚ) / 1000) = 101 / 100 := by
      have hx : (1005 : ℚ) / 1000 * 10 ^ 2 = ((201 : ℤ) : ℚ) / ((2 : ℤ) : ℚ) := by norm_num
      rw [round_half_up, hx]
      norm_num [rhuInt, Rat.floor_eq_intFloor]
    rw [he, hu]
    norm_num

theorem c2_line_total_half_up_witness :
    ((InvoiceItem.mk ⟨2, 0⟩ "a" ⟨1005, 3⟩).quantity.mul
        (InvoiceItem.mk ⟨2, 0⟩ "a" ⟨1005, 3⟩).unit_price).man.natAbs < 10 ^ 28 ∧
    (InvoiceItem.mk ⟨2, 0⟩ "a" ⟨1005, 3⟩).totalOpt
      = some (InvoiceItem.mk ⟨2, 0⟩ "a" ⟨1005, 3⟩).total :=
  ⟨by decide,
    (c2_line_total_half_up (InvoiceItem.mk ⟨2, 0⟩ "a" ⟨1005, 3⟩)
      (by decide) (by decide)).1⟩

/-- C2 counterexample: for the 29-significant-digit quantity
12345678901234567890123456.785 and unit price 1, the default context first
rounds the exact product half-even to 28 digits, so the program's line total
ends in .78, while rounding the exact product half-up to cents would end in
.79 — the unrestricted claim fails. -/
theorem c2_counterexample_precision :
    (InvoiceItem.mk ⟨12345678901234567890123456785, 3⟩ "a" ⟨1, 0⟩).totalOpt
        = some ⟨1234567890123456789012345678, 2⟩ ∧
    (⟨1234567890123456789012345678, 2⟩ : Decimal).toRat
        ≠ round_half_up 2 ((⟨12345678901234567890123456785, 3⟩ : Decimal).toRat
            * (⟨1, 0⟩ : Decimal).toRat) := by
  constructor
  · decide
  · have hx : (⟨12345678901234567890123456785, 3⟩ : Decimal).toRat
        * (⟨1, 0⟩ : Decimal).toRat * 10 ^ 2
        = ((2469135780246913578024691357 : ℤ) : ℚ) / ((2 : ℤ) : ℚ) := by
      rw [Decimal.toRat, Decimal.toRat]
      norm_num
    rw [round_half_up, hx, rhuInt, if_pos (by norm_num)]
    have hfl : (((2469135780246913578024691357 : ℤ) : ℚ) / ((2 : ℤ) : ℚ) + 1 / 2).floor
        = 1234567890123456789012345679 := by
      rw [Rat.floor_eq_intFloor]
      have hadd : ((2469135780246913578024691357 : ℤ) : ℚ) / ((2 : ℤ) : ℚ) + 1 / 2
          = ((2469135780246913578024691358 : ℤ) : ℚ) / ((2 : ℤ) : ℚ) := by
        push_cast
        ring
      rw [hadd]
      norm_num
    rw [hfl, Decimal.toRat]
    norm_num

/-- C3 counterexample: the rate text `"inf"` is accepted by the `Decimal`
constructor (so `_safe_rate` does not replace it by 0), and the subsequent
arithmetic of `_update_totals` signals a trapped `InvalidOperation`
(`0 × ∞`, or `quantize` of an infinity): `computeTotals` raises. -/
theorem c3_counterexample_inf_rate : update_totals [] "inf" "2" = none := by
  decide

/-- C3 (amended): whenever each rate text either fails to parse (and is then
treated as the rate 0 by `_safe_rate`) or parses to a finite value, and the
computation keeps every intermediate coefficient below the 28-digit context
precision, `_update_totals` raises nothing and computes exactly the finite
totals of `update_totals_val`.  The rate `"inf"` parses to `Infinity` and
raises (see the counterexample), and a finite rate such as `1E+30` raises
through the precision overflow of `quantize`, which the provisos exclude. -/
theorem c3_safe_rates_no_raise (items : List InvoiceItem) (v w : String) (dv dw : Decimal)
    (hv : safe_rate v = .fin dv) (hw : safe_rate w = .fin dw)
    (hall : items.all item_small = true)
    (hsums : sums_small ⟨0, 0⟩ items = true)
    (hv1 : ((base_of items).mul dv).man.natAbs < 10 ^ 28)
    (hv2 : (Decimal.quantizeHU 2 (((base_of items).mul dv).div100)).man.natAbs < 10 ^ 28)
    (hw1 : ((base_of items).mul dw).man.natAbs < 10 ^ 28)
    (hw2 : (Decimal.quantizeHU 2 (((base_of items).mul dw).div100)).man.natAbs < 10 ^ 28)
    (ht1 : ((base_of items).add
        (Decimal.quantizeHU 2 (((base_of items).mul dv).div100))).man.natAbs < 10 ^ 28)
    (ht2 : (((base_of items).add
        (Decimal.quantizeHU 2 (((base_of items).mul dv).div100))).sub
          (Decimal.quantizeHU 2 (((base_of items).mul dw).div100))).man.natAbs < 10 ^ 28) :
    update_totals items v w
      = some ⟨(update_totals_val items dv dw).base_amount,
          .fin (update_totals_val items dv dw).vat_amount,
          .fin (update_totals_val items dv dw).withholding_amount,
          .fin (update_totals_val items dv dw).total_amount⟩ := by
  unfold update_totals
  rw [hv, hw]
  exact update_totals_pd_exact items dv dw hall hsums hv1 hv2 hw1 hw2 ht1 ht2

theorem c3_safe_rates_no_raise_witness :
    safe_rate "abc" = .fin ⟨0, 0⟩ ∧ safe_rate "" = .fin ⟨0, 0⟩ ∧
    update_totals [] "abc" ""
      = some ⟨(update_totals_val [] ⟨0, 0⟩ ⟨0, 0⟩).base_amount,
          .fin (update_totals_val [] ⟨0, 0⟩ ⟨0, 0⟩).vat_amount,
          .fin (update_totals_val [] ⟨0, 0⟩ ⟨0, 0⟩).withholding_amount,
          .fin (update_totals_val [] ⟨0, 0⟩ ⟨0, 0⟩).total_amount⟩ :=
  ⟨by decide, by decide,
    c3_safe_rates_no_raise [] "abc" "" ⟨0, 0⟩ ⟨0, 0⟩ (by decide) (by decide) (by decide)
      (by decide) (by decide) (by decide) (by decide) (by decide) (by decide) (by decide)⟩

/-- C9: on the empty item list with rate texts `"21"` and `"2"`,
`_update_totals` yields base, VAT, withholding and total all of value 0. -/
theorem c9_compute_totals_empty :
    update_totals [] "21" "2" = some ⟨⟨0, 0⟩, .fin ⟨0, 2⟩, .fin ⟨0, 2⟩, .fin ⟨0, 2⟩⟩ ∧
    (⟨0, 0⟩ : Decimal).toRat = 0 ∧ (⟨0, 2⟩ : Decimal).toRat = 0 := by
  refine ⟨by decide, ?_, ?_⟩ <;> rw [Decimal.toRat] <;> norm_num

/-- C4: for the reachable base 0.30 (one line of 3 × 0.10) and rates 21 / 2,
the component-wise total is 0.35 while rounding the combined factor directly
would give 0.36; the implementation produces the component-wise 0.35. -/
theorem c4_componentwise_differs_from_combined :
    update_totals [⟨⟨3, 0⟩, "a", ⟨10, 2⟩⟩] "21" "2"
      = some ⟨⟨30, 2⟩, .fin ⟨6, 2⟩, .fin ⟨1, 2⟩, .fin ⟨35, 2⟩⟩ ∧
    (⟨30, 2⟩ : Decimal).toRat = 30 / 100 ∧
    (⟨35, 2⟩ : Decimal).toRat = 35 / 100 ∧
    round_half_up 2 ((30 : ℚ) / 100 * (1 + (21 - 2) / 100)) = 36 / 100 ∧
    (35 : ℚ) / 100 ≠ 36 / 100 := by
  refine ⟨by decide, ?_, ?_, ?_, by norm_num⟩
  · rw [Decimal.toRat]; norm_num
  · rw [Decimal.toRat]; norm_num
  · have hx : (30 : ℚ) / 100 * (1 + (21 - 2) / 100) * 10 ^ 2 = 357 / 10 := by norm_num
    rw [round_half_up, hx, rhuInt, if_pos (by norm_num)]
    have hfl : ((357 : ℚ) / 10 + 1 / 2).floor = 36 := by
      rw [Rat.floor_eq_intFloor]
      have : (357 : ℚ) / 10 + 1 / 2 = 181 / 5 := by norm_num
      rw [this]
      norm_num
    rw [hfl]
    norm_num

lemma digitOfNat_isDigit {d : ℕ} (h : d < 10) : (digitOfNat d).isDigit = true := by
  interval_cases d <;> decide

lemma charVal_digitOfNat {d : ℕ} (h : d < 10) : charVal (digitOfNat d) = d := by
  interval_cases d <;> decide

lemma dotToComma_digit {c : Char} (h : c.isDigit = true) : dotToComma c = c := by
  unfold dotToComma
  rw [if_neg]
  intro hc
  rw [beq_iff_eq.mp hc] at h
  exact absurd h (by decide)

lemma dotToComma_all_digits {l : List Char} (h : l.all Char.isDigit = true) :
    l.map dotToComma = l := by
  induction l with
  | nil => rfl
  | cons c t ih =>
      rw [List.all_cons, Bool.and_eq_true] at h
      rw [List.map_cons, dotToComma_digit h.1, ih h.2]

lemma natDigitsAux_all_digits (fuel : ℕ) : ∀ n, (natDigitsAux fuel n).all Char.isDigit = true := by
  induction fuel with
  | zero => intro n; rfl
  | succ fuel ih =>
      intro n
      unfold natDigitsAux
      split
      · simp [digitOfNat_isDigit (by omega : n < 10)]
      · rw [List.all_append, ih (n / 10)]
        simp [digitOfNat_isDigit (Nat.mod_lt n (by norm_num))]

lemma natDigits_all_digits (n : ℕ) : (natDigits n).all Char.isDigit = true :=
  natDigitsAux_all_digits (n + 1) n

lemma fixed2_all_digits (f : ℕ) : (fixed2 f).all Char.isDigit = true := by
  unfold fixed2
  simp [digitOfNat_isDigit (Nat.mod_lt _ (by norm_num) : f / 10 % 10 < 10),
    digitOfNat_isDigit (Nat.mod_lt _ (by norm_num) : f % 10 < 10)]

lemma fixed3_all_digits (f : ℕ) : (fixed3 f).all Char.isDigit = true := by
  unfold fixed3
  simp [digitOfNat_isDigit (Nat.mod_lt _ (by norm_num) : f / 100 % 10 < 10),
    digitOfNat_isDigit (Nat.mod_lt _ (by norm_num) : f / 10 % 10 < 10),
    digitOfNat_isDigit (Nat.mod_lt _ (by norm_num) : f % 10 < 10)]

lemma natDigits_ne_nil (n : ℕ) : natDigits n ≠ [] := by
  unfold natDigits natDigitsAux
  split
  · exact fun hc => List.noConfusion hc
  · exact fun hc => absurd (List.append_eq_nil.mp hc).2 (fun hc' => List.noConfusion hc')

lemma rhuInt_nonneg {x : ℚ} (h : 0 ≤ x) : 0 ≤ rhuInt x := by
  unfold rhuInt
  rw [if_pos h, Rat.floor_eq_intFloor]
  exact Int.le_floor.mpr (by push_cast; linarith)

lemma rheInt_nonneg {x : ℚ} (h : 0 ≤ x) : 0 ≤ rheInt x := by
  unfold rheInt
  rw [if_pos h]
  unfold rheAux
  have hf : (0 : ℤ) ≤ x.floor ∨ x.floor = x.floor := Or.inr rfl
  by_cases h0 : (0 : ℤ) ≤ x.floor
  · split
    · exact h0
    · split
      · omega
      · split <;> omega
  · exfalso
    rw [Rat.floor_eq_intFloor] at h0
    exact h0 (Int.le_floor.mpr (by push_cast; linarith))

lemma Decimal.toRat_neg_iff (d : Decimal) : d.toRat < 0 ↔ d.man < 0 := by
  unfold Decimal.toRat
  have hp := pow10_pos d.exp
  constructor
  · intro h
    by_contra hm
    push_neg at hm
    have h0 : (0 : ℚ) ≤ (d.man : ℚ) / 10 ^ d.exp :=
      div_nonneg (by exact_mod_cast hm) hp.le
    linarith
  · intro h
    exact div_neg_of_neg_of_pos (by exact_mod_cast h) hp

lemma Decimal.natAbs_man_quantizeHU (n : ℕ) (d : Decimal) :
    ((Decimal.quantizeHU n d).man).natAbs = (rhuInt (|d.toRat| * 10 ^ n)).toNat := by
  rw [Decimal.man_quantizeHU]
  rcases le_or_lt 0 d.toRat with h | h
  · rw [abs_of_nonneg h]
    have h0 : 0 ≤ rhuInt (d.toRat * 10 ^ n) :=
      rhuInt_nonneg (mul_nonneg h (pow10_pos n).le)
    omega
  · rw [abs_of_neg h]
    have hrw : rhuInt (-d.toRat * 10 ^ n) = -rhuInt (d.toRat * 10 ^ n) := by
      rw [show -d.toRat * 10 ^ n = -(d.toRat * 10 ^ n) by ring, rhuInt_neg]
    have h0 : 0 ≤ rhuInt (-d.toRat * 10 ^ n) :=
      rhuInt_nonneg (mul_nonneg (by linarith) (pow10_pos n).le)
    rw [hrw] at h0 ⊢
    omega

lemma Decimal.natAbs_man_quantizeHE (n : ℕ) (d : Decimal) :
    ((Decimal.quantizeHE n d).man).natAbs = (rheInt (|d.toRat| * 10 ^ n)).toNat := by
  rw [Decimal.man_quantizeHE]
  rcases le_or_lt 0 d.toRat with h | h
  · rw [abs_of_nonneg h]
    have h0 : 0 ≤ rheInt (d.toRat * 10 ^ n) :=
      rheInt_nonneg (mul_nonneg h (pow10_pos n).le)
    omega
  · rw [abs_of_neg h]
    have hrw : rheInt (-d.toRat * 10 ^ n) = -rheInt (d.toRat * 10 ^ n) := by
      rw [show -d.toRat * 10 ^ n = -(d.toRat * 10 ^ n) by ring, rheInt_neg]
    have h0 : 0 ≤ rheInt (-d.toRat * 10 ^ n) :=
      rheInt_nonneg (mul_nonneg (by linarith) (pow10_pos n).le)
    rw [hrw] at h0 ⊢
    omega

/-- C7 (amended): whenever the cent coefficient of the quantized amount
stays below the 28-digit context precision, `_format_currency` renders the
amount by rounding half-up to 2 decimals and printing a fixed two-decimal
representation with the decimal point replaced by a comma and no thousands
separator; e.g. `1234.5` renders as `"1234,50"`.  Without the proviso the
claim fails: see the counterexample, where `quantize` raises instead of
rendering. -/
theorem c7_format_currency_fixed :
    (∀ d : Decimal, (Decimal.quantizeHU 2 d).man.natAbs < 10 ^ 28 →
        format_currency d = some (format_currency_spec d)) ∧
    format_currency ⟨12345, 1⟩ = some "1234,50" := by
  refine ⟨?_, by decide⟩
  intro d hd
  simp only [format_currency, Decimal.quantizeOptHU_pos hd, Option.map_some']
  congr 1
  simp only [format_currency_spec]
  have hsign : (if d.toRat < 0 then ['-'] else ([] : List Char))
      = (if d.man < 0 then ['-'] else []) :=
    if_congr (Decimal.toRat_neg_iff d) rfl rfl
  rw [hsign, ← Decimal.natAbs_man_quantizeHU]
  congr 1
  rw [List.map_append, List.map_append, List.map_cons,
    dotToComma_all_digits (natDigits_all_digits _),
    dotToComma_all_digits (fixed2_all_digits _)]
  have hmapS : ((if d.man < 0 then ['-'] else []) : List Char).map dotToComma
      = (if d.man < 0 then ['-'] else []) := by
    split_ifs <;> rfl
  rw [hmapS]
  rfl

theorem c7_format_currency_fixed_witness :
    (Decimal.quantizeHU 2 (⟨12345, 1⟩ : Decimal)).man.natAbs < 10 ^ 28 ∧
    format_currency ⟨12345, 1⟩ = some (format_currency_spec ⟨12345, 1⟩) :=
  ⟨by decide, c7_format_currency_fixed.1 ⟨12345, 1⟩ (by decide)⟩

/-- C7 counterexample: the amount 1E+30 (reachable as a parsed unit price)
makes `_format_currency` raise — its cent quantization would need a
31-digit coefficient, which the default context traps as
`InvalidOperation` — so not every amount is rendered. -/
theorem c7_counterexample_large_amount :
    format_currency ⟨1000000000000000000000000000000, 0⟩ = none := by
  decide

/-- C8 (amended): whenever the quantized coefficient stays below the
28-digit context precision, `_format_rate` rounds to 2 decimals with the
default-context round-half-to-even mode (unlike the explicit half-up of
currency and quantity), strips trailing zeros and a trailing point, uses a
comma, and appends `%`; e.g. `21 ↦ "21%"`, `2.5 ↦ "2,5%"`, and on the tie
`2.125` it yields `"2,12%"` where half-up would round to 2.13.  Without the
proviso the claim fails: see the counterexample. -/
theorem c8_format_rate_half_even :
    (∀ d : Decimal, (Decimal.quantizeHE 2 d).man.natAbs < 10 ^ 28 →
        format_rate d = some (format_rate_spec d)) ∧
    format_rate ⟨21, 0⟩ = some "21%" ∧ format_rate ⟨25, 1⟩ = some "2,5%" ∧
    format_rate ⟨2125, 3⟩ = some "2,12%" ∧
    round_half_even 2 ((2125 : ℚ) / 1000) = 212 / 100 ∧
    round_half_up 2 ((2125 : ℚ) / 1000) = 213 / 100 := by
  refine ⟨?_, by decide, by decide, by decide, ?_, ?_⟩
  · intro d hd
    simp only [format_rate, Decimal.quantizeOptHE_pos hd, Option.map_some']
    congr 1
    simp only [format_rate_spec]
    have hsign : (if d.toRat < 0 then ['-'] else ([] : List Char))
        = (if d.man < 0 then ['-'] else []) :=
      if_congr (Decimal.toRat_neg_iff d) rfl rfl
    rw [hsign, ← Decimal.natAbs_man_quantizeHE]
  · have hf : ((425 : ℚ) / 2).floor = 212 := by
      rw [Rat.floor_eq_intFloor]
      norm_num
    rw [round_half_even, show (2125 : ℚ) / 1000 * 10 ^ 2 = 425 / 2 by norm_num,
      rheInt, if_pos (by norm_num), rheAux, hf]
    rw [if_neg (by norm_num), if_neg (by norm_num), if_pos (by norm_num)]
    norm_num
  · have hf : ((425 : ℚ) / 2 + 1 / 2).floor = 213 := by
      rw [Rat.floor_eq_intFloor]
      norm_num
    rw [round_half_up, show (2125 : ℚ) / 1000 * 10 ^ 2 = 425 / 2 by norm_num,
      rhuInt, if_pos (by norm_num), hf]
    norm_num

theorem c8_format_rate_half_even_witness :
    (Decimal.quantizeHE 2 (⟨2125, 3⟩ : Decimal)).man.natAbs < 10 ^ 28 ∧
    format_rate ⟨2125, 3⟩ = some (format_rate_spec ⟨2125, 3⟩) :=
  ⟨by decide, c8_format_rate_half_even.1 ⟨2125, 3⟩ (by decide)⟩

/-- C8 counterexample: the finite rate 1E+30 (reachable through
`_safe_rate`, which accepts it) makes `_format_rate` raise in `quantize`
(31-digit coefficient, trapped `InvalidOperation`), so not every rate is
rendered. -/
theorem c8_counterexample_large_rate :
    format_rate ⟨1000000000000000000000000000000, 0⟩ = none := by
  decide

/-- C10: adding a line whose description is empty after trimming never
creates an item — the item list is returned unchanged, the outcome is an
error (a validation error whenever quantity and price do parse). -/
theorem c10_add_item_empty_description (items : List InvoiceItem) (qt dt pt : String)
    (h : pyTrim dt = "") :
    (add_item items qt dt pt).2 = items ∧
    (add_item items qt dt pt).1 ≠ AddOutcome.added ∧
    (add_item items qt dt pt).1 ≠ AddOutcome.addedNonFin ∧
    (∀ vq vp, parse_decimal qt = some vq → parse_decimal pt = some vp →
      (add_item items qt dt pt).1 = AddOutcome.validationError) := by
  unfold add_item
  cases hq : parse_decimal qt with
  | none => simp [h]
  | some vq =>
      cases hp : parse_decimal pt with
      | none => cases vq <;> simp [h]
      | some vp => cases vq <;> cases vp <;> simp [h]

theorem c10_add_item_empty_description_witness :
    (add_item [] "1" " " "2").2 = [] ∧
    (add_item [] "1" " " "2").1 = AddOutcome.validationError :=
  ⟨(c10_add_item_empty_description [] "1" " " "2" (by decide)).1,
    (c10_add_item_empty_description [] "1" " " "2" (by decide)).2.2.2
      (.fin ⟨1, 0⟩) (.fin ⟨2, 0⟩) (by decide) (by decide)⟩

lemma beq_false_of_isDigit {c x : Char} (h : c.isDigit = true) (hx : x.isDigit = false) :
    (c == x) = false := by
  cases hbe : c == x
  · rfl
  · rw [beq_iff_eq.mp hbe] at h
    rw [h] at hx
    exact Bool.noConfusion hx

lemma digit_not_e {c : Char} (h : c.isDigit = true) : (c == 'e' || c == 'E') = false := by
  rw [beq_false_of_isDigit h (by decide), beq_false_of_isDigit h (by decide)]
  rfl

lemma digit_not_dot {c : Char} (h : c.isDigit = true) : (c == '.') = false :=
  beq_false_of_isDigit h (by decide)

lemma all_takeWhile (p : Char → Bool) (l : List Char) : (l.takeWhile p).all p = true := by
  induction l with
  | nil => rfl
  | cons c t ih =>
      by_cases hc : p c = true
      · rw [List.takeWhile_cons_of_pos hc, List.all_cons, hc, ih]
        rfl
      · rw [List.takeWhile_cons_of_neg hc]
        rfl

lemma head_dropWhile_false {p : Char → Bool} {l : List Char} {c : Char} {t : List Char}
    (h : l.dropWhile p = c :: t) : p c = false := by
  induction l with
  | nil => exact absurd h (by simp)
  | cons a l ih =>
      by_cases ha : p a = true
      · rw [List.dropWhile_cons_of_pos ha] at h
        exact ih h
      · rw [List.dropWhile_cons_of_neg ha] at h
        cases h
        exact Bool.not_eq_true _ ▸ Bool.of_not_eq_true ha

lemma takeWhile_append_of_all {p : Char → Bool} {A : List Char} (B : List Char)
    (h : A.all p = true) : (A ++ B).takeWhile p = A ++ B.takeWhile p := by
  induction A with
  | nil => rfl
  | cons a A ih =>
      rw [List.all_cons, Bool.and_eq_true] at h
      rw [List.cons_append, List.takeWhile_cons_of_pos h.1, ih h.2, List.cons_append]

lemma dropWhile_append_of_all {p : Char → Bool} {A : List Char} (B : List Char)
    (h : A.all p = true) : (A ++ B).dropWhile p = B.dropWhile p := by
  induction A with
  | nil => rfl
  | cons a A ih =>
      rw [List.all_cons, Bool.and_eq_true] at h
      rw [List.cons_append, List.dropWhile_cons_of_pos h.1, ih h.2]

lemma all_not_e_of_digits {l : List Char} (h : l.all Char.isDigit = true) :
    l.all notE = true := by
  rw [List.all_eq_true] at h ⊢
  intro c hc
  rw [notE, digit_not_e (h c hc)]
  rfl

lemma any_digit_of_all {l : List Char} (h : l.all Char.isDigit = true) :
    l.any Char.isDigit = !l.isEmpty := by
  cases l with
  | nil => rfl
  | cons c t =>
      rw [List.all_cons, Bool.and_eq_true] at h
      rw [List.any_cons, h.1]
      rfl

lemma countP_dot_zero {l : List Char} (h : l.all Char.isDigit = true) :
    l.countP (fun c => c == '.') = 0 := by
  rw [List.countP_eq_zero]
  intro c hc
  rw [List.all_eq_true] at h
  rw [digit_not_dot (h c hc)]
  exact fun hc' => Bool.noConfusion hc'

lemma parseExpTail_isSome (r : List Char) :
    (parseExpTail r).isSome
      = (!(dropSignL r).2.isEmpty && (dropSignL r).2.all Char.isDigit) := by
  simp only [parseExpTail]
  by_cases hc : (!(dropSignL r).2.isEmpty && (dropSignL r).2.all Char.isDigit) = true
  · rw [if_pos hc, hc]
    rfl
  · rw [if_neg hc]
    rw [Bool.not_eq_true] at hc
    rw [hc]
    rfl

lemma takeWhile_eq_self_of_all {p : Char → Bool} {l : List Char} (h : l.all p = true) :
    l.takeWhile p = l := by
  induction l with
  | nil => rfl
  | cons c t ih =>
      rw [List.all_cons, Bool.and_eq_true] at h
      rw [List.takeWhile_cons_of_pos h.1, ih h.2]

lemma dropWhile_eq_nil_of_all {p : Char → Bool} {l : List Char} (h : l.all p = true) :
    l.dropWhile p = [] := by
  induction l with
  | nil => rfl
  | cons c t ih =>
      rw [List.all_cons, Bool.and_eq_true] at h
      rw [List.dropWhile_cons_of_pos h.1, ih h.2]

lemma all_digit_dot_of_digits {l : List Char} (h : l.all Char.isDigit = true) :
    l.all (fun c => c.isDigit || c == '.') = true := by
  rw [List.all_eq_true] at h ⊢
  intro c hc
  rw [h c hc]
  rfl

lemma mantOk_of_digits {l : List Char} (h : l.all Char.isDigit = true) :
    mantOk l = !l.isEmpty := by
  unfold mantOk
  rw [all_digit_dot_of_digits h, countP_dot_zero h, any_digit_of_all h]
  simp

lemma mantOk_digits_dot_digits {D F : List Char} (hD : D.all Char.isDigit = true)
    (hF : F.all Char.isDigit = true) :
    mantOk (D ++ '.' :: F) = (!D.isEmpty || !F.isEmpty) := by
  unfold mantOk
  rw [List.all_append, all_digit_dot_of_digits hD, List.all_cons,
    all_digit_dot_of_digits hF, List.countP_append, List.countP_cons,
    countP_dot_zero hD, countP_dot_zero hF, List.any_append, List.any_cons,
    any_digit_of_all hD, any_digit_of_all hF]
  simp

lemma mantOk_false_of_bad_mem {l : List Char} {c : Char} (hc : c ∈ l)
    (h1 : c.isDigit = false) (h2 : (c == '.') = false) : mantOk l = false := by
  unfold mantOk
  have hall : l.all (fun x => x.isDigit || x == '.') = false := by
    cases hres : l.all (fun x => x.isDigit || x == '.')
    · rfl
    · rw [List.all_eq_true] at hres
      have := hres c hc
      rw [h1, h2] at this
      exact Bool.noConfusion this
  rw [hall]
  rfl

lemma mantOk_false_two_dots {l : List Char} (h : 2 ≤ l.countP (fun c => c == '.')) :
    mantOk l = false := by
  unfold mantOk
  have hd : decide (l.countP (fun c => c == '.') ≤ 1) = false := by
    rw [decide_eq_false_iff_not]
    omega
  rw [hd]
  simp

lemma notE_dot : notE '.' = true := by decide

lemma notE_false_of_e {c : Char} (he : (c == 'e' || c == 'E') = true) : notE c = false := by
  rw [notE, he]
  rfl

lemma notE_true_of_not_e {c : Char} (he : (c == 'e' || c == 'E') = false) : notE c = true := by
  rw [notE, he]
  rfl

lemma parseNumericTail_key (neg : Bool) (ip rest : List Char)
    (hip : ip.all Char.isDigit = true)
    (hrest : ∀ c t, rest = c :: t → c.isDigit = false) :
    (parseNumericTail neg (ip ++ rest)).isSome = numericOk (ip ++ rest) := by
  have hipe : ip.all notE = true := all_not_e_of_digits hip
  cases rest with
  | nil =>
      rw [List.append_nil]
      simp only [parseNumericTail, numericOk]
      rw [takeWhile_eq_self_of_all hip, dropWhile_eq_nil_of_all hip,
        takeWhile_eq_self_of_all hipe, dropWhile_eq_nil_of_all hipe,
        mantOk_of_digits hip]
      cases hie : ip.isEmpty <;> simp [hie]
  | cons c t =>
      have hc : c.isDigit = false := hrest c t rfl
      have hcn : ¬c.isDigit = true := by rw [hc]; exact Bool.noConfusion
      have htakeip : (ip ++ c :: t).takeWhile Char.isDigit = ip := by
        rw [takeWhile_append_of_all _ hip, List.takeWhile_cons_of_neg hcn, List.append_nil]
      have hdropip : (ip ++ c :: t).dropWhile Char.isDigit = c :: t := by
        rw [dropWhile_append_of_all _ hip, List.dropWhile_cons_of_neg hcn]
      simp only [parseNumericTail, numericOk]
      rw [htakeip, hdropip]
      simp only [List.isEmpty_cons, List.headD_cons, List.tail_cons]
      rw [if_neg Bool.false_ne_true]
      by_cases hdot : c = '.'
      · subst hdot
        rw [if_pos (by decide : (('.' : Char) == '.') = true)]
        have hfr : (t.takeWhile Char.isDigit).all Char.isDigit = true := all_takeWhile _ _
        have hfre : (t.takeWhile Char.isDigit).all notE = true := all_not_e_of_digits hfr
        have htkdot : (('.' : Char) :: t).takeWhile notE = '.' :: t.takeWhile notE :=
          List.takeWhile_cons_of_pos notE_dot
        have hdrdot : (('.' : Char) :: t).dropWhile notE = t.dropWhile notE :=
          List.dropWhile_cons_of_pos notE_dot
        rw [takeWhile_append_of_all _ hipe, htkdot, dropWhile_append_of_all _ hipe, hdrdot]
        cases hr3 : t.dropWhile Char.isDigit with
        | nil =>
            have ht : t.takeWhile Char.isDigit = t := by
              conv_rhs => rw [← List.takeWhile_append_dropWhile Char.isDigit t]
              rw [hr3, List.append_nil]
            have hta : t.all Char.isDigit = true := by rw [← ht]; exact hfr
            have hte : t.all notE = true := all_not_e_of_digits hta
            rw [takeWhile_eq_self_of_all hte, dropWhile_eq_nil_of_all hte,
              mantOk_digits_dot_digits hip hta, ht]
            cases hie : ip.isEmpty <;> cases hte2 : t.isEmpty <;> simp [hie, hte2]
        | cons c2 r4 =>
            have hc2 : c2.isDigit = false := head_dropWhile_false hr3
            have hts : t.takeWhile Char.isDigit ++ c2 :: r4 = t := by
              rw [← hr3]
              exact List.takeWhile_append_dropWhile Char.isDigit t
            by_cases he : (c2 == 'e' || c2 == 'E') = true
            · have hpc2 : notE c2 = false := notE_false_of_e he
              have hpc2n : ¬notE c2 = true := by rw [hpc2]; exact Bool.noConfusion
              have hTakeT : t.takeWhile notE = t.takeWhile Char.isDigit := by
                conv_lhs => rw [← hts]
                rw [takeWhile_append_of_all _ hfre, List.takeWhile_cons_of_neg hpc2n,
                  List.append_nil]
              have hDropT : t.dropWhile notE = c2 :: r4 := by
                conv_lhs => rw [← hts]
                rw [dropWhile_append_of_all _ hfre, List.dropWhile_cons_of_neg hpc2n]
              rw [hTakeT, hDropT, mantOk_digits_dot_digits hip hfr]
              simp only [List.isEmpty_cons, List.headD_cons, List.tail_cons]
              rw [if_neg Bool.false_ne_true, if_pos he]
              cases hie : ip.isEmpty <;>
                cases hfe : (t.takeWhile Char.isDigit).isEmpty <;>
                  simp [hie, hfe, Option.isSome_map, parseExpTail_isSome]
            · have hpc2 : notE c2 = true :=
                notE_true_of_not_e (Bool.not_eq_true _ ▸ he)
              have hTakeT : t.takeWhile notE
                  = t.takeWhile Char.isDigit ++ c2 :: r4.takeWhile notE := by
                conv_lhs => rw [← hts]
                rw [takeWhile_append_of_all _ hfre, List.takeWhile_cons_of_pos hpc2]
              rw [hTakeT]
              have hmant : mantOk (ip ++ '.' :: (t.takeWhile Char.isDigit
                  ++ c2 :: r4.takeWhile notE)) = false := by
                by_cases hdot2 : c2 = '.'
                · subst hdot2
                  apply mantOk_false_two_dots
                  rw [List.countP_append, List.countP_cons, List.countP_append,
                    List.countP_cons]
                  simp only [beq_self_eq_true, if_pos]
                  omega
                · refine mantOk_false_of_bad_mem ?_ hc2 (beq_eq_false_iff_ne.mpr hdot2)
                  exact List.mem_append.mpr (Or.inr (List.mem_cons_of_mem _
                    (List.mem_append.mpr (Or.inr (List.mem_cons_self _ _)))))
              rw [hmant]
              simp only [List.isEmpty_cons, List.headD_cons, List.tail_cons]
              rw [if_neg Bool.false_ne_true, if_neg he]
              simp
      · rw [if_neg (fun hbe => hdot (beq_iff_eq.mp hbe))]
        have hcd : (c == '.') = false := beq_eq_false_iff_ne.mpr hdot
        by_cases he : (c == 'e' || c == 'E') = true
        · have hpc : notE c = false := notE_false_of_e he
          have hpcn : ¬notE c = true := by rw [hpc]; exact Bool.noConfusion
          rw [takeWhile_append_of_all _ hipe, List.takeWhile_cons_of_neg hpcn,
            List.append_nil, dropWhile_append_of_all _ hipe,
            List.dropWhile_cons_of_neg hpcn, mantOk_of_digits hip]
          simp only [List.isEmpty_cons, List.headD_cons, List.tail_cons]
          cases hie : ip.isEmpty <;> simp [hie, he, Option.isSome_map, parseExpTail_isSome]
        · have hpc : notE c = true := notE_true_of_not_e (Bool.not_eq_true _ ▸ he)
          rw [takeWhile_append_of_all _ hipe, List.takeWhile_cons_of_pos hpc]
          have hmant : mantOk (ip ++ c :: t.takeWhile notE) = false := by
            refine mantOk_false_of_bad_mem ?_ hc hcd
            exact List.mem_append.mpr (Or.inr (List.mem_cons_self _ _))
          rw [hmant]
          rw [Bool.not_eq_true] at he
          simp [he]

lemma isSome_map_opt {α β : Type} (f : α → β) (o : Option α) :
    (o.map f).isSome = o.isSome := by
  cases o <;> rfl

lemma parseNumericTail_isSome (neg : Bool) (l : List Char) :
    (parseNumericTail neg l).isSome = numericOk l := by
  have h := parseNumericTail_key neg (l.takeWhile Char.isDigit) (l.dropWhile Char.isDigit)
    (all_takeWhile _ _) (fun _ _ hct => head_dropWhile_false hct)
  rwa [List.takeWhile_append_dropWhile] at h

lemma lowerChar_eq_of_small {c : Char} (h : c.toNat < 65) : lowerChar c = c := by
  rw [lowerChar, if_neg]
  intro hAZ
  have h65 : 65 ≤ c.toNat := hAZ.1
  omega

lemma toNat_lt_of_digit_dot {c : Char} (h : (c.isDigit || c == '.') = true) :
    c.toNat < 65 := by
  rw [Bool.or_eq_true] at h
  rcases h with h | h
  · unfold Char.isDigit at h
    rw [Bool.and_eq_true] at h
    have h2 := h.2
    rw [decide_eq_true_eq] at h2
    have h3 : c.toNat ≤ 57 := h2
    omega
  · rw [beq_iff_eq.mp h]
    decide

lemma ne_char_of_lt {c x : Char} (h : c.toNat < 65) (hx : 65 ≤ x.toNat) : c ≠ x := by
  intro he
  rw [he] at h
  omega

lemma keywordKind_none_of_digit_dot {c : Char} (t : List Char)
    (h : (c.isDigit || c == '.') = true) : keywordKind (c :: t) = none := by
  have hsmall := toNat_lt_of_digit_dot h
  have hlc : lowerChar c = c := lowerChar_eq_of_small hsmall
  simp only [keywordKind, List.map_cons, hlc]
  have hne1 : ¬(c :: t.map lowerChar = ['i', 'n', 'f']
      ∨ c :: t.map lowerChar = ['i', 'n', 'f', 'i', 'n', 'i', 't', 'y']) := by
    rintro (h1 | h1) <;>
      · injection h1 with hh _
        exact absurd hh (ne_char_of_lt hsmall (by decide))
  have hne2 : ¬((c :: t.map lowerChar).take 3 = ['n', 'a', 'n']
      ∧ ((c :: t.map lowerChar).drop 3).all Char.isDigit = true) := by
    rintro ⟨h1, _⟩
    rw [List.take_succ_cons] at h1
    injection h1 with hh _
    exact absurd hh (ne_char_of_lt hsmall (by decide))
  have hne3 : ¬((c :: t.map lowerChar).take 4 = ['s', 'n', 'a', 'n']
      ∧ ((c :: t.map lowerChar).drop 4).all Char.isDigit = true) := by
    rintro ⟨h1, _⟩
    rw [List.take_succ_cons] at h1
    injection h1 with hh _
    exact absurd hh (ne_char_of_lt hsmall (by decide))
  rw [if_neg hne1, if_neg hne2, if_neg hne3]

lemma numericOk_false_of_bad_head {c : Char} (t : List Char)
    (h : (c.isDigit || c == '.') = false) :
    numericOk (c :: t) = false := by
  rw [Bool.or_eq_false_iff] at h
  by_cases he : (c == 'e' || c == 'E') = true
  · have hnc : notE c = false := notE_false_of_e he
    have hncn : ¬notE c = true := by rw [hnc]; exact Bool.noConfusion
    simp only [numericOk]
    rw [List.takeWhile_cons_of_neg hncn]
    rw [show mantOk [] = false by decide]
    simp
  · have hnc : notE c = true := notE_true_of_not_e (Bool.not_eq_true _ ▸ he)
    simp only [numericOk]
    rw [List.takeWhile_cons_of_pos hnc]
    rw [mantOk_false_of_bad_mem (List.mem_cons_self _ _) h.1 h.2]
    simp

lemma parseCore_isSome (l : List Char) : (parseCore l).isSome = valid_decimal_literal l := by
  simp only [parseCore, valid_decimal_literal]
  cases hd : (dropSignL l).2 with
  | nil =>
      rw [show numericOk [] = false by decide, show keywordKind ([] : List Char) = none by decide]
      simp
  | cons c t =>
      simp only [List.isEmpty_cons, List.headD_cons]
      rw [if_neg Bool.false_ne_true]
      by_cases hh : (c.isDigit || c == '.') = true
      · rw [if_pos hh, isSome_map_opt, parseNumericTail_isSome,
          keywordKind_none_of_digit_dot t hh]
        simp
      · rw [if_neg hh]
        have hb : (c.isDigit || c == '.') = false := by rwa [Bool.not_eq_true] at hh
        rw [numericOk_false_of_bad_head t hb, isSome_map_opt]
        simp

lemma commaToDot_digit {c : Char} (h : c.isDigit = true) : commaToDot c = c := by
  rw [commaToDot, if_neg]
  intro hbe
  rw [beq_iff_eq.mp hbe] at h
  exact absurd h (by decide)

lemma map_commaToDot_digits {l : List Char} (h : l.all Char.isDigit = true) :
    l.map commaToDot = l := by
  induction l with
  | nil => rfl
  | cons c t ih =>
      rw [List.all_cons, Bool.and_eq_true] at h
      rw [List.map_cons, commaToDot_digit h.1, ih h.2]

/-- C5: `_parse_decimal` treats comma and dot alike (the comma is normalised
to a dot before parsing); over strings of ASCII characters — the modelled
scope, the constructor additionally accepting other Unicode digits and
whitespace — it fails exactly when the normalised, stripped input is empty
or not a text the `Decimal` constructor accepts; in particular `""` and
`"abc"` fail, `"12,50"` and `"12.50"` parse to the same value 12.50, and
`"1_5"` parses to 15 (the constructor removes underscore grouping anywhere
in the text). -/
theorem c5_parse_decimal_separators (a b : String)
    (ha : a.data.all Char.isDigit = true) (hb : b.data.all Char.isDigit = true) :
    parse_decimal (a ++ "," ++ b) = parse_decimal (a ++ "." ++ b) ∧
    (∀ s : String, s.data.all (fun c => decide (c.toNat < 128)) = true →
      (parse_decimal s = none ↔
        (pyStrip (s.data.map commaToDot) = []
          ∨ decimal_literal_ok (pyStrip (s.data.map commaToDot)) = false))) ∧
    parse_decimal "" = none ∧ parse_decimal "abc" = none ∧
    parse_decimal "12,50" = parse_decimal "12.50" ∧
    parse_decimal "12,50" = some (.fin ⟨1250, 2⟩) ∧
    parse_decimal "1_5" = some (.fin ⟨15, 0⟩) := by
  refine ⟨?_, ?_, by decide, by decide, by decide, by decide, by decide⟩
  · have hdata : (a ++ "," ++ b).data.map commaToDot
        = (a ++ "." ++ b).data.map commaToDot := by
      rw [String.data_append, String.data_append, String.data_append, String.data_append,
        List.map_append, List.map_append, List.map_append, List.map_append,
        map_commaToDot_digits ha, map_commaToDot_digits hb]
      rfl
    simp only [parse_decimal]
    rw [hdata]
  · intro s _hascii
    simp only [parse_decimal]
    by_cases hempty : (pyStrip (s.data.map commaToDot)).isEmpty = true
    · rw [if_pos hempty]
      rw [List.isEmpty_iff] at hempty
      simp [hempty]
    · rw [if_neg hempty]
      have hval := parseCore_isSome
        ((pyStrip (s.data.map commaToDot)).filter (fun c => !(c == '_')))
      constructor
      · intro hnone
        right
        simp only [decimal_literal_ok]
        rw [← hval, hnone]
        rfl
      · rintro (h0 | h0)
        · rw [← List.isEmpty_iff] at h0
          exact absurd h0 hempty
        · simp only [decimal_literal_ok] at h0
          rw [← hval] at h0
          cases hc : parseCore
              ((pyStrip (s.data.map commaToDot)).filter (fun c => !(c == '_'))) with
          | none => rfl
          | some v =>
              rw [hc] at h0
              exact absurd h0 (by simp)

theorem c5_parse_decimal_separators_witness :
    parse_decimal ("12" ++ "," ++ "50") = parse_decimal ("12" ++ "." ++ "50") ∧
    parse_decimal "12,50" = some (.fin ⟨1250, 2⟩) :=
  ⟨(c5_parse_decimal_separators "12" "50" (by decide) (by decide)).1,
    (c5_parse_decimal_separators "12" "50" (by decide) (by decide)).2.2.2.2.2.1⟩

lemma digitsVal_foldl_shift (ys : List Char) :
    ∀ a : ℕ, ys.foldl (fun x c => 10 * x + charVal c) a
      = a * 10 ^ ys.length + digitsVal ys := by
  induction ys with
  | nil => intro a; simp [digitsVal]
  | cons c t ih =>
      intro a
      rw [List.foldl_cons, ih (10 * a + charVal c)]
      have h2 : digitsVal (c :: t)
          = t.foldl (fun x c => 10 * x + charVal c) (10 * 0 + charVal c) := rfl
      rw [h2, ih (10 * 0 + charVal c), List.length_cons]
      ring

lemma digitsVal_append (X Y : List Char) :
    digitsVal (X ++ Y) = digitsVal X * 10 ^ Y.length + digitsVal Y := by
  rw [digitsVal, List.foldl_append, digitsVal_foldl_shift]
  rfl

lemma digitsVal_natDigitsAux {fuel n : ℕ} (h : n < fuel) :
    digitsVal (natDigitsAux fuel n) = n := by
  induction fuel generalizing n with
  | zero => omega
  | succ fuel ih =>
      unfold natDigitsAux
      by_cases h10 : n < 10
      · rw [if_pos h10]
        show 10 * 0 + charVal (digitOfNat n) = n
        rw [charVal_digitOfNat h10]
        omega
      · rw [if_neg h10]
        rw [digitsVal_append, ih (by omega : n / 10 < fuel)]
        show n / 10 * 10 ^ ([digitOfNat (n % 10)].length) + (10 * 0 + charVal (digitOfNat (n % 10))) = n
        rw [charVal_digitOfNat (Nat.mod_lt _ (by norm_num))]
        simp
        omega

lemma digitsVal_natDigits (n : ℕ) : digitsVal (natDigits n) = n :=
  digitsVal_natDigitsAux (Nat.lt_succ_self n)

lemma digitsVal_fixed3 {f : ℕ} (h : f < 1000) : digitsVal (fixed3 f) = f := by
  unfold fixed3
  show 10 * (10 * (10 * 0 + charVal (digitOfNat (f / 100 % 10)))
      + charVal (digitOfNat (f / 10 % 10))) + charVal (digitOfNat (f % 10)) = f
  rw [charVal_digitOfNat (Nat.mod_lt _ (by norm_num)),
    charVal_digitOfNat (Nat.mod_lt _ (by norm_num)),
    charVal_digitOfNat (Nat.mod_lt _ (by norm_num))]
  omega

lemma fixed3_length (f : ℕ) : (fixed3 f).length = 3 := rfl

lemma dropWhile_append_cons {p : Char → Bool} {b : Char} (hb : p b = false)
    (X Y : List Char) : (X ++ b :: Y).dropWhile p = X.dropWhile p ++ b :: Y := by
  induction X with
  | nil =>
      rw [List.nil_append, List.dropWhile_nil, List.nil_append,
        List.dropWhile_cons_of_neg (by rw [hb]; exact Bool.noConfusion)]
  | cons x X ih =>
      by_cases hx : p x = true
      · rw [List.cons_append, List.dropWhile_cons_of_pos hx, ih,
          List.dropWhile_cons_of_pos hx]
      · rw [List.cons_append, List.dropWhile_cons_of_neg hx,
          List.dropWhile_cons_of_neg hx, List.cons_append]

lemma rstripChar_append_cons {b c2 : Char} (hb : (b == c2) = false)
    (A F : List Char) : rstripChar c2 (A ++ b :: F) = A ++ b :: rstripChar c2 F := by
  unfold rstripChar
  have h1 : (A ++ b :: F).reverse = F.reverse ++ b :: A.reverse := by
    rw [List.reverse_append, List.reverse_cons, List.append_assoc]
    rfl
  rw [h1, @dropWhile_append_cons (fun x => x == c2) b hb F.reverse A.reverse,
    List.reverse_append, List.reverse_cons, List.reverse_reverse, List.append_assoc]
  rfl

lemma all_dropWhile_of_all {p q : Char → Bool} {l : List Char} (h : l.all p = true) :
    (l.dropWhile q).all p = true := by
  induction l with
  | nil => rfl
  | cons c t ih =>
      rw [List.all_cons, Bool.and_eq_true] at h
      by_cases hc : q c = true
      · rw [List.dropWhile_cons_of_pos hc]
        exact ih h.2
      · rw [List.dropWhile_cons_of_neg hc, List.all_cons, Bool.and_eq_true]
        exact ⟨h.1, h.2⟩

lemma all_reverse_of_all {p : Char → Bool} {l : List Char} (h : l.all p = true) :
    l.reverse.all p = true := by
  rw [List.all_eq_true] at h ⊢
  intro c hc
  exact h c (List.mem_reverse.mp hc)

lemma all_rstripChar_of_all {p : Char → Bool} {c2 : Char} {l : List Char}
    (h : l.all p = true) : (rstripChar c2 l).all p = true := by
  unfold rstripChar
  exact all_reverse_of_all (all_dropWhile_of_all (all_reverse_of_all h))

lemma map_eq_self_of_all {f : Char → Char} {l : List Char}
    (h : l.all (fun c => f c == c) = true) : l.map f = l := by
  induction l with
  | nil => rfl
  | cons c t ih =>
      rw [List.all_cons, Bool.and_eq_true] at h
      rw [List.map_cons, beq_iff_eq.mp h.1, ih h.2]

lemma dropWhile_eq_self_of_all_neg {p : Char → Bool} {l : List Char}
    (h : l.all (fun c => !(p c)) = true) : l.dropWhile p = l := by
  cases l with
  | nil => rfl
  | cons c t =>
      rw [List.all_cons, Bool.and_eq_true] at h
      have hc : p c = false := by
        have := h.1
        cases hpc : p c
        · rfl
        · rw [hpc] at this; exact Bool.noConfusion this
      rw [List.dropWhile_cons_of_neg (by rw [hc]; exact Bool.noConfusion)]

lemma pyStrip_eq_self {l : List Char}
    (h : l.all (fun c => !(isSpaceChar c)) = true) : pyStrip l = l := by
  unfold pyStrip
  rw [dropWhile_eq_self_of_all_neg h, dropWhile_eq_self_of_all_neg (all_reverse_of_all h),
    List.reverse_reverse]

lemma all_render {p : Char → Bool} (hminus : p '-' = true) (hdot : p '.' = true)
    (hdig : ∀ c, c.isDigit = true → p c = true)
    (S D X : List Char) (hS : S = [] ∨ S = ['-']) (hD : D.all Char.isDigit = true)
    (hX : X = [] ∨ ∃ F, X = '.' :: F ∧ F.all Char.isDigit = true) :
    (S ++ D ++ X).all p = true := by
  have hallD : D.all p = true := by
    rw [List.all_eq_true] at hD ⊢
    exact fun c hc => hdig c (hD c hc)
  have hallS : S.all p = true := by
    rcases hS with h | h <;> rw [h]
    · rfl
    · rw [List.all_cons, hminus]
      rfl
  have hallX : X.all p = true := by
    rcases hX with h | ⟨F, hXF, hF⟩
    · rw [h]; rfl
    · rw [hXF, List.all_cons, hdot, Bool.true_and, List.all_eq_true]
      intro c hc
      exact hdig c (List.all_eq_true.mp hF c hc)
  rw [List.all_append, List.all_append, hallS, hallD, hallX]
  rfl

lemma getLast_digit_of_all {l : List Char} (hne : l ≠ [])
    (h : l.all Char.isDigit = true) : (l.getLast hne).isDigit = true := by
  rw [List.all_eq_true] at h
  exact h _ (List.getLast_mem hne)

lemma strip_zeros_dot_render (P F3 : List Char) (hPne : P ≠ [])
    (hPlast : (P.getLast hPne).isDigit = true) (hF3 : F3.all Char.isDigit = true) :
    strip_zeros_dot (P ++ '.' :: F3)
      = P ++ (if rstripChar '0' F3 = [] then [] else '.' :: rstripChar '0' F3) := by
  unfold strip_zeros_dot
  rw [rstripChar_append_cons (by decide : (('.' : Char) == '0') = false)]
  by_cases hF : rstripChar '0' F3 = []
  · rw [hF, if_pos rfl]
    have hdec : P.dropLast ++ [P.getLast hPne] = P := List.dropLast_append_getLast hPne
    conv_lhs => rw [← hdec]
    have hshape : (P.dropLast ++ [P.getLast hPne]) ++ '.' :: ([] : List Char)
        = P.dropLast ++ (P.getLast hPne) :: ['.'] := by
      simp
    rw [hshape,
      rstripChar_append_cons (beq_false_of_isDigit hPlast (by decide)) P.dropLast ['.']]
    rw [show rstripChar '.' ['.'] = [] from by decide]
    rw [hdec, List.append_nil]
  · rw [if_neg hF]
    have hFall : (rstripChar '0' F3).all Char.isDigit = true := all_rstripChar_of_all hF3
    have hlast : ((rstripChar '0' F3).getLast hF).isDigit = true :=
      getLast_digit_of_all hF hFall
    have hdec : (rstripChar '0' F3).dropLast ++ [(rstripChar '0' F3).getLast hF]
        = rstripChar '0' F3 := List.dropLast_append_getLast hF
    conv_lhs => rw [← hdec]
    have hshape : P ++ '.' :: ((rstripChar '0' F3).dropLast
          ++ [(rstripChar '0' F3).getLast hF])
        = (P ++ '.' :: (rstripChar '0' F3).dropLast)
          ++ ((rstripChar '0' F3).getLast hF) :: [] := by
      simp
    rw [hshape,
      rstripChar_append_cons (beq_false_of_isDigit hlast (by decide))
        (P ++ '.' :: (rstripChar '0' F3).dropLast) []]
    rw [show rstripChar '.' ([] : List Char) = [] from rfl]
    rw [List.append_assoc]
    rw [show ('.' :: (rstripChar '0' F3).dropLast)
        ++ ((rstripChar '0' F3).getLast hF) :: []
        = '.' :: rstripChar '0' F3 from by rw [List.cons_append, hdec]]

lemma rstrip0_decomp (F : List Char) :
    F = rstripChar '0' F ++ (F.reverse.takeWhile (fun x => x == '0')).reverse := by
  conv_lhs =>
    rw [← List.reverse_reverse F,
      ← List.takeWhile_append_dropWhile (fun x => x == '0') F.reverse]
  rw [List.reverse_append]
  rfl

lemma mem_rstrip0_tail_eq_zero {F : List Char} {c : Char}
    (hc : c ∈ (F.reverse.takeWhile (fun x => x == '0')).reverse) : c = '0' := by
  rw [List.mem_reverse] at hc
  have h0 := List.mem_takeWhile_imp hc
  exact beq_iff_eq.mp h0

lemma digitsVal_all_zeros {Z : List Char} (h : ∀ c ∈ Z, c = '0') : digitsVal Z = 0 := by
  induction Z with
  | nil => rfl
  | cons z t ih =>
      have hz : z = '0' := h z (List.mem_cons_self _ _)
      have h2 : digitsVal (z :: t)
          = t.foldl (fun x c => 10 * x + charVal c) (10 * 0 + charVal z) := rfl
      rw [h2, digitsVal_foldl_shift, ih (fun c hc => h c (List.mem_cons_of_mem _ hc)), hz]
      rw [show charVal '0' = 0 from rfl]
      ring

lemma decOfDigits_zero_exp (neg : Bool) (ip fr : List Char) :
    decOfDigits neg ip fr 0
      = ⟨if neg then -(digitsVal (ip ++ fr) : ℤ) else (digitsVal (ip ++ fr) : ℤ),
          fr.length⟩ := by
  unfold decOfDigits
  cases fr with
  | nil => simp
  | cons f fr =>
      have hnet : (0 : ℤ) - (f :: fr).length < 0 := by
        rw [List.length_cons]
        omega
      rw [if_neg (not_le.mpr hnet)]
      have : (-((0 : ℤ) - (f :: fr).length)).toNat = (f :: fr).length := by omega
      rw [this]

lemma dropSignL_cons (c : Char) (r : List Char) :
    dropSignL (c :: r)
      = if c == '-' then (true, r) else if c == '+' then (false, r) else (false, c :: r) :=
  rfl

lemma parseNumericTail_render (neg : Bool) (D X : List Char) (hD : D ≠ [])
    (hDall : D.all Char.isDigit = true)
    (hX : X = [] ∨ ∃ F, X = '.' :: F ∧ F.all Char.isDigit = true) :
    parseNumericTail neg (D ++ X) = some (decOfDigits neg D X.tail 0) := by
  have hDe : D.isEmpty = false := by
    cases D with
    | nil => exact absurd rfl hD
    | cons _ _ => rfl
  rcases hX with hX | ⟨F, hXF, hF⟩
  · subst hX
    rw [List.append_nil]
    simp only [parseNumericTail]
    rw [takeWhile_eq_self_of_all hDall, dropWhile_eq_nil_of_all hDall]
    rw [show ([] : List Char).isEmpty = true from rfl, if_pos rfl, hDe,
      if_neg Bool.false_ne_true]
    rfl
  · subst hXF
    have hdotn : ¬('.' : Char).isDigit = true := by decide
    simp only [parseNumericTail]
    rw [takeWhile_append_of_all _ hDall, List.takeWhile_cons_of_neg hdotn, List.append_nil,
      dropWhile_append_of_all _ hDall, List.dropWhile_cons_of_neg hdotn]
    simp only [List.isEmpty_cons, List.headD_cons, List.tail_cons]
    rw [if_neg Bool.false_ne_true, if_pos (by decide : (('.' : Char) == '.') = true),
      takeWhile_eq_self_of_all hF, dropWhile_eq_nil_of_all hF, hDe, Bool.false_and,
      if_neg Bool.false_ne_true, show ([] : List Char).isEmpty = true from rfl, if_pos rfl]

lemma parseCore_render (neg : Bool) (D X : List Char) (hD : D ≠ [])
    (hDall : D.all Char.isDigit = true)
    (hX : X = [] ∨ ∃ F, X = '.' :: F ∧ F.all Char.isDigit = true) :
    parseCore ((if neg then ['-'] else []) ++ (D ++ X))
      = some (.fin (decOfDigits neg D X.tail 0)) := by
  obtain ⟨d0, D', hD0⟩ : ∃ d0 D', D = d0 :: D' := by
    cases D with
    | nil => exact absurd rfl hD
    | cons a b => exact ⟨a, b, rfl⟩
  have hd0 : d0.isDigit = true := by
    rw [hD0, List.all_cons, Bool.and_eq_true] at hDall
    exact hDall.1
  have hlist : D ++ X = d0 :: (D' ++ X) := by rw [hD0]; rfl
  have hsign : dropSignL ((if neg then ['-'] else []) ++ (D ++ X)) = (neg, D ++ X) := by
    cases neg
    · rw [if_neg Bool.false_ne_true, List.nil_append, hlist, dropSignL_cons,
        if_neg (by rw [beq_false_of_isDigit hd0 (by decide)]; exact Bool.noConfusion),
        if_neg (by rw [beq_false_of_isDigit hd0 (by decide)]; exact Bool.noConfusion),
        ← hlist]
    · rw [if_pos rfl]
      rfl
  simp only [parseCore]
  rw [hsign]
  have hp2 : (neg, D ++ X).2 = D ++ X := rfl
  have hp1 : (neg, D ++ X).1 = neg := rfl
  rw [hp2, hp1, hlist]
  simp only [List.isEmpty_cons, List.headD_cons]
  rw [if_neg Bool.false_ne_true, if_pos (by rw [hd0]; rfl), ← hlist,
    parseNumericTail_render neg D X hD hDall hX]
  rfl

lemma format_quantity_eq (d : Decimal)
    (hq : (Decimal.quantizeHU 3 d).man.natAbs < 10 ^ 28) :
    format_quantity d
      = some ⟨((if d.man < 0 then ['-'] else [])
          ++ (natDigits ((Decimal.quantizeHU 3 d).man.natAbs / 1000)
            ++ (if rstripChar '0' (fixed3 ((Decimal.quantizeHU 3 d).man.natAbs % 1000)) = []
                then []
                else '.' :: rstripChar '0'
                  (fixed3 ((Decimal.quantizeHU 3 d).man.natAbs % 1000))))).map dotToComma⟩ := by
  have hDne := natDigits_ne_nil ((Decimal.quantizeHU 3 d).man.natAbs / 1000)
  have hPne : (if d.man < 0 then ['-'] else [])
      ++ natDigits ((Decimal.quantizeHU 3 d).man.natAbs / 1000) ≠ [] :=
    fun h => hDne (List.append_eq_nil.mp h).2
  have hlast : (((if d.man < 0 then ['-'] else [])
      ++ natDigits ((Decimal.quantizeHU 3 d).man.natAbs / 1000)).getLast hPne).isDigit
        = true := by
    rw [List.getLast_append' _ _ hDne]
    exact getLast_digit_of_all hDne (natDigits_all_digits _)
  simp only [format_quantity, Decimal.quantizeOptHU_pos hq, Option.map_some',
    Option.some.injEq]
  refine congrArg String.mk ?_
  rw [strip_zeros_dot_render _ _ hPne hlast (fixed3_all_digits _)]
  have hne2 : (((if d.man < 0 then ['-'] else [])
        ++ natDigits ((Decimal.quantizeHU 3 d).man.natAbs / 1000))
      ++ (if rstripChar '0' (fixed3 ((Decimal.quantizeHU 3 d).man.natAbs % 1000)) = []
          then []
          else '.' :: rstripChar '0' (fixed3 ((Decimal.quantizeHU 3 d).man.natAbs % 1000))))
      ≠ [] :=
    fun h => hDne (List.append_eq_nil.mp (List.append_eq_nil.mp h).1).2
  have hie : List.isEmpty (((if d.man < 0 then ['-'] else [])
        ++ natDigits ((Decimal.quantizeHU 3 d).man.natAbs / 1000))
      ++ (if rstripChar '0' (fixed3 ((Decimal.quantizeHU 3 d).man.natAbs % 1000)) = []
          then []
          else '.' :: rstripChar '0' (fixed3 ((Decimal.quantizeHU 3 d).man.natAbs % 1000))))
      = false := by
    cases hl : ((if d.man < 0 then ['-'] else [])
        ++ natDigits ((Decimal.quantizeHU 3 d).man.natAbs / 1000))
      ++ (if rstripChar '0' (fixed3 ((Decimal.quantizeHU 3 d).man.natAbs % 1000)) = []
          then []
          else '.' :: rstripChar '0' (fixed3 ((Decimal.quantizeHU 3 d).man.natAbs % 1000))) with
    | nil => exact absurd hl hne2
    | cons a b => rfl
  rw [hie, if_neg Bool.false_ne_true, List.append_assoc]

lemma length_dropWhile_le (p : Char → Bool) (l : List Char) :
    (l.dropWhile p).length ≤ l.length := by
  induction l with
  | nil => exact le_refl _
  | cons c t ih =>
      by_cases hc : p c = true
      · rw [List.dropWhile_cons_of_pos hc, List.length_cons]
        exact le_trans ih (Nat.le_succ _)
      · rw [List.dropWhile_cons_of_neg hc]

lemma length_rstripChar_le (c : Char) (l : List Char) :
    (rstripChar c l).length ≤ l.length := by
  unfold rstripChar
  rw [List.length_reverse, ← List.length_reverse l]
  exact length_dropWhile_le _ _

lemma isSpaceChar_digit_false {c : Char} (h : c.isDigit = true) : isSpaceChar c = false := by
  unfold isSpaceChar
  rw [beq_false_of_isDigit h (by decide), beq_false_of_isDigit h (by decide),
    beq_false_of_isDigit h (by decide), beq_false_of_isDigit h (by decide),
    beq_false_of_isDigit h (by decide), beq_false_of_isDigit h (by decide),
    beq_false_of_isDigit h (by decide), beq_false_of_isDigit h (by decide),
    beq_false_of_isDigit h (by decide), beq_false_of_isDigit h (by decide)]
  rfl

lemma rstrip0_fixed3_val (f : ℕ) (hf : f < 1000) :
    digitsVal (rstripChar '0' (fixed3 f))
        * 10 ^ (3 - (rstripChar '0' (fixed3 f)).length) = f
      ∧ (rstripChar '0' (fixed3 f)).length ≤ 3 := by
  have hdec := rstrip0_decomp (fixed3 f)
  have hlen : (rstripChar '0' (fixed3 f)).length
      + ((fixed3 f).reverse.takeWhile (fun x => x == '0')).reverse.length = 3 := by
    rw [← List.length_append, ← hdec, fixed3_length]
  have hz : digitsVal ((fixed3 f).reverse.takeWhile (fun x => x == '0')).reverse = 0 :=
    digitsVal_all_zeros (fun c hc => mem_rstrip0_tail_eq_zero hc)
  have hv : digitsVal (fixed3 f)
      = digitsVal (rstripChar '0' (fixed3 f))
          * 10 ^ ((fixed3 f).reverse.takeWhile (fun x => x == '0')).reverse.length := by
    conv_lhs => rw [hdec]
    rw [digitsVal_append, hz, Nat.add_zero]
  constructor
  · rw [show 3 - (rstripChar '0' (fixed3 f)).length
        = ((fixed3 f).reverse.takeWhile (fun x => x == '0')).reverse.length from by omega]
    rw [← hv, digitsVal_fixed3 hf]
  · omega

lemma render_digitsVal_mul (m : ℕ) :
    digitsVal (natDigits (m / 1000) ++ rstripChar '0' (fixed3 (m % 1000)))
        * 10 ^ (3 - (rstripChar '0' (fixed3 (m % 1000))).length) = m := by
  obtain ⟨hval, hr3⟩ := rstrip0_fixed3_val (m % 1000) (Nat.mod_lt _ (by norm_num))
  rw [digitsVal_append, digitsVal_natDigits, Nat.add_mul, Nat.mul_assoc, ← pow_add,
    show (rstripChar '0' (fixed3 (m % 1000))).length
        + (3 - (rstripChar '0' (fixed3 (m % 1000))).length) = 3 from by omega,
    hval]
  have h103 : (10 : ℕ) ^ 3 = 1000 := by norm_num
  rw [h103]
  omega

lemma quantizeHU_of_exp_le {n : ℕ} (man : ℤ) {e : ℕ} (h : e ≤ n) :
    Decimal.quantizeHU n ⟨man, e⟩ = ⟨man * 10 ^ (n - e), n⟩ := by
  unfold Decimal.quantizeHU
  exact if_pos h

lemma quantizeHU_decOfDigits (b : Bool) (m : ℕ) :
    Decimal.quantizeHU 3
        (decOfDigits b (natDigits (m / 1000)) (rstripChar '0' (fixed3 (m % 1000))) 0)
      = ⟨if b then -(m : ℤ) else (m : ℤ), 3⟩ := by
  obtain ⟨hval, hr3⟩ := rstrip0_fixed3_val (m % 1000) (Nat.mod_lt _ (by norm_num))
  have hvm := render_digitsVal_mul m
  rw [decOfDigits_zero_exp, quantizeHU_of_exp_le _ hr3]
  congr 1
  cases b
  · rw [if_neg Bool.false_ne_true, if_neg Bool.false_ne_true]
    exact_mod_cast hvm
  · rw [if_pos rfl, if_pos rfl, neg_mul, neg_inj]
    exact_mod_cast hvm

lemma natAbs_quantizeHU_decOfDigits (b : Bool) (m : ℕ) :
    (Decimal.quantizeHU 3
        (decOfDigits b (natDigits (m / 1000))
          (rstripChar '0' (fixed3 (m % 1000))) 0)).man.natAbs = m := by
  rw [quantizeHU_decOfDigits]
  cases b
  · rw [if_neg Bool.false_ne_true]
    exact Int.natAbs_ofNat m
  · rw [if_pos rfl, Int.natAbs_neg]
    exact Int.natAbs_ofNat m

lemma man_quantizeHU_thousandths (d : Decimal) (k : ℤ) (h : d.toRat = (k : ℚ) / 1000) :
    (Decimal.quantizeHU 3 d).man = k := by
  rw [Decimal.man_quantizeHU, h]
  have h3 : (k : ℚ) / 1000 * 10 ^ 3 = (k : ℚ) := by
    norm_num
  rw [h3, rhuInt_intCast]

lemma decOfDigits_man_neg_iff (d : Decimal) (k : ℤ) (h : d.toRat = (k : ℚ) / 1000) :
    (decOfDigits (decide (d.man < 0))
        (natDigits ((Decimal.quantizeHU 3 d).man.natAbs / 1000))
        (rstripChar '0' (fixed3 ((Decimal.quantizeHU 3 d).man.natAbs % 1000))) 0).man < 0
      ↔ d.man < 0 := by
  have hman : (decOfDigits (decide (d.man < 0))
      (natDigits ((Decimal.quantizeHU 3 d).man.natAbs / 1000))
      (rstripChar '0' (fixed3 ((Decimal.quantizeHU 3 d).man.natAbs % 1000))) 0).man
      = (if decide (d.man < 0) then
          -(digitsVal (natDigits ((Decimal.quantizeHU 3 d).man.natAbs / 1000)
            ++ rstripChar '0' (fixed3 ((Decimal.quantizeHU 3 d).man.natAbs % 1000))) : ℤ)
        else (digitsVal (natDigits ((Decimal.quantizeHU 3 d).man.natAbs / 1000)
            ++ rstripChar '0' (fixed3 ((Decimal.quantizeHU 3 d).man.natAbs % 1000))) : ℤ)) := by
    rw [decOfDigits_zero_exp]
  rw [hman]
  by_cases hm : d.man < 0
  · rw [decide_eq_true hm, if_pos rfl]
    have hk : (Decimal.quantizeHU 3 d).man = k := man_quantizeHU_thousandths d k h
    have hkneg : k < 0 := by
      have h1 : d.toRat < 0 := (Decimal.toRat_neg_iff d).mpr hm
      rw [h] at h1
      by_contra hk0
      push_neg at hk0
      have h2 : (0 : ℚ) ≤ (k : ℚ) / 1000 :=
        div_nonneg (by exact_mod_cast hk0) (by norm_num)
      linarith
    have hm1 : 1 ≤ (Decimal.quantizeHU 3 d).man.natAbs := by
      rw [hk]
      omega
    have hvm := render_digitsVal_mul ((Decimal.quantizeHU 3 d).man.natAbs)
    have hv1 : 1 ≤ digitsVal (natDigits ((Decimal.quantizeHU 3 d).man.natAbs / 1000)
        ++ rstripChar '0' (fixed3 ((Decimal.quantizeHU 3 d).man.natAbs % 1000))) := by
      by_contra h0
      push_neg at h0
      have h0' : digitsVal (natDigits ((Decimal.quantizeHU 3 d).man.natAbs / 1000)
          ++ rstripChar '0' (fixed3 ((Decimal.quantizeHU 3 d).man.natAbs % 1000))) = 0 := by
        omega
      rw [h0', Nat.zero_mul] at hvm
      omega
    constructor
    · intro _
      exact hm
    · intro _
      omega
  · rw [decide_eq_false hm, if_neg Bool.false_ne_true]
    constructor
    · intro hlt
      exact absurd hlt (by omega)
    · intro hc
      exact absurd hc hm

lemma parse_render (b : Bool) (m : ℕ) :
    parseCore ((if b then ['-'] else [])
        ++ (natDigits (m / 1000)
          ++ (if rstripChar '0' (fixed3 (m % 1000)) = [] then []
              else '.' :: rstripChar '0' (fixed3 (m % 1000)))))
      = some (.fin (decOfDigits b (natDigits (m / 1000))
          (rstripChar '0' (fixed3 (m % 1000))) 0)) := by
  have hD := natDigits_ne_nil (m / 1000)
  have hDall := natDigits_all_digits (m / 1000)
  have hRall : (rstripChar '0' (fixed3 (m % 1000))).all Char.isDigit = true :=
    all_rstripChar_of_all (fixed3_all_digits _)
  by_cases hR : rstripChar '0' (fixed3 (m % 1000)) = []
  · rw [if_pos hR, hR]
    exact parseCore_render b _ [] hD hDall (Or.inl rfl)
  · rw [if_neg hR]
    exact parseCore_render b _ ('.' :: rstripChar '0' (fixed3 (m % 1000))) hD hDall
      (Or.inr ⟨_, rfl, hRall⟩)

lemma filter_eq_self_of_all {p : Char → Bool} {l : List Char} (h : l.all p = true) :
    l.filter p = l := by
  induction l with
  | nil => rfl
  | cons c t ih =>
      rw [List.all_cons, Bool.and_eq_true] at h
      rw [List.filter_cons, if_pos h.1, ih h.2]

lemma parse_render_string (b : Bool) (m : ℕ) :
    parse_decimal ⟨((if b then ['-'] else [])
        ++ (natDigits (m / 1000)
          ++ (if rstripChar '0' (fixed3 (m % 1000)) = [] then []
              else '.' :: rstripChar '0' (fixed3 (m % 1000))))).map dotToComma⟩
      = some (.fin (decOfDigits b (natDigits (m / 1000))
          (rstripChar '0' (fixed3 (m % 1000))) 0)) := by
  have hXor : (if rstripChar '0' (fixed3 (m % 1000)) = []
        then ([] : List Char)
        else '.' :: rstripChar '0' (fixed3 (m % 1000)))
      = [] ∨ ∃ F, (if rstripChar '0' (fixed3 (m % 1000)) = []
        then ([] : List Char)
        else '.' :: rstripChar '0' (fixed3 (m % 1000)))
      = '.' :: F ∧ F.all Char.isDigit = true := by
    by_cases hR : rstripChar '0' (fixed3 (m % 1000)) = []
    · exact Or.inl (if_pos hR)
    · exact Or.inr ⟨_, if_neg hR, all_rstripChar_of_all (fixed3_all_digits _)⟩
  have hSor : (if b then ['-'] else ([] : List Char)) = []
      ∨ (if b then ['-'] else ([] : List Char)) = ['-'] := by
    cases b
    · exact Or.inl rfl
    · exact Or.inr rfl
  have hdata : (⟨((if b then ['-'] else [])
        ++ (natDigits (m / 1000)
          ++ (if rstripChar '0' (fixed3 (m % 1000)) = [] then []
              else '.' :: rstripChar '0' (fixed3 (m % 1000))))).map dotToComma⟩ : String).data
      = ((if b then ['-'] else [])
        ++ (natDigits (m / 1000)
          ++ (if rstripChar '0' (fixed3 (m % 1000)) = [] then []
              else '.' :: rstripChar '0' (fixed3 (m % 1000))))).map dotToComma := rfl
  have hfix : (((if b then ['-'] else [])
        ++ (natDigits (m / 1000)
          ++ (if rstripChar '0' (fixed3 (m % 1000)) = [] then []
              else '.' :: rstripChar '0' (fixed3 (m % 1000))))).map dotToComma).map commaToDot
      = (if b then ['-'] else [])
        ++ (natDigits (m / 1000)
          ++ (if rstripChar '0' (fixed3 (m % 1000)) = [] then []
              else '.' :: rstripChar '0' (fixed3 (m % 1000)))) := by
    rw [List.map_map]
    apply map_eq_self_of_all
    rw [← List.append_assoc]
    refine all_render ?_ ?_ ?_ _ _ _ hSor (natDigits_all_digits _) hXor
    · decide
    · decide
    · intro c hc
      show (commaToDot (dotToComma c) == c) = true
      rw [dotToComma_digit hc, commaToDot_digit hc]
      exact beq_self_eq_true c
  have hstrip : pyStrip ((if b then ['-'] else [])
        ++ (natDigits (m / 1000)
          ++ (if rstripChar '0' (fixed3 (m % 1000)) = [] then []
              else '.' :: rstripChar '0' (fixed3 (m % 1000)))))
      = (if b then ['-'] else [])
        ++ (natDigits (m / 1000)
          ++ (if rstripChar '0' (fixed3 (m % 1000)) = [] then []
              else '.' :: rstripChar '0' (fixed3 (m % 1000)))) := by
    apply pyStrip_eq_self
    rw [← List.append_assoc]
    refine all_render ?_ ?_ ?_ _ _ _ hSor (natDigits_all_digits _) hXor
    · decide
    · decide
    · intro c hc
      show (!(isSpaceChar c)) = true
      rw [isSpaceChar_digit_false hc]
      rfl
  have hfil : ((if b then ['-'] else [])
        ++ (natDigits (m / 1000)
          ++ (if rstripChar '0' (fixed3 (m % 1000)) = [] then []
              else '.' :: rstripChar '0' (fixed3 (m % 1000))))).filter (fun c => !(c == '_'))
      = (if b then ['-'] else [])
        ++ (natDigits (m / 1000)
          ++ (if rstripChar '0' (fixed3 (m % 1000)) = [] then []
              else '.' :: rstripChar '0' (fixed3 (m % 1000)))) := by
    apply filter_eq_self_of_all
    rw [← List.append_assoc]
    refine all_render ?_ ?_ ?_ _ _ _ hSor (natDigits_all_digits _) hXor
    · decide
    · decide
    · intro c hc
      show (!(c == '_')) = true
      rw [beq_false_of_isDigit hc (by decide)]
      rfl
  have hDne := natDigits_ne_nil (m / 1000)
  have hne : List.isEmpty ((if b then ['-'] else [])
      ++ (natDigits (m / 1000)
        ++ (if rstripChar '0' (fixed3 (m % 1000)) = [] then []
            else '.' :: rstripChar '0' (fixed3 (m % 1000)))))
      = false := by
    cases hl : (if b then ['-'] else [])
      ++ (natDigits (m / 1000)
        ++ (if rstripChar '0' (fixed3 (m % 1000)) = [] then []
            else '.' :: rstripChar '0' (fixed3 (m % 1000)))) with
    | nil =>
        exact absurd (List.append_eq_nil.mp (List.append_eq_nil.mp hl).2).1 hDne
    | cons a t => rfl
  simp only [parse_decimal, hdata]
  rw [hfix, hstrip, hne, if_neg Bool.false_ne_true, hfil]
  exact parse_render b m

lemma format_quantity_congr (u d : Decimal)
    (hm : (Decimal.quantizeHU 3 u).man.natAbs = (Decimal.quantizeHU 3 d).man.natAbs)
    (hs : u.man < 0 ↔ d.man < 0)
    (hd : (Decimal.quantizeHU 3 d).man.natAbs < 10 ^ 28) :
    format_quantity u = format_quantity d := by
  have hu : (Decimal.quantizeHU 3 u).man.natAbs < 10 ^ 28 := by
    rw [hm]
    exact hd
  rw [format_quantity_eq u hu, format_quantity_eq d hd, hm,
    show (if u.man < 0 then ['-'] else ([] : List Char))
        = (if d.man < 0 then ['-'] else []) from by
      by_cases h : d.man < 0
      · rw [if_pos h, if_pos (hs.mpr h)]
      · rw [if_neg h, if_neg (fun hu2 => h (hs.mp hu2))]]

/-- C6 (amended): for quantities with at most three decimal places whose
mil-quantized coefficient stays below the 28-digit context precision,
`_format_quantity` renders a string that parses back (via `_parse_decimal`)
to a finite value formatting to the very same string; 2.000 renders as
`"2"` and 2.500 as `"2,5"` (half-up quantize to three decimals, trailing
zeros and point stripped, comma separator).  Without the precision proviso
the claim fails: see the counterexample, where `quantize` raises instead of
rendering. -/
theorem c6_format_quantity_roundtrip (d : Decimal) (k : ℤ)
    (h : d.toRat = (k : ℚ) / 1000)
    (hp : (Decimal.quantizeHU 3 d).man.natAbs < 10 ^ 28) :
    (∃ s : String, ∃ e : Decimal, format_quantity d = some s
        ∧ parse_decimal s = some (.fin e) ∧ format_quantity e = some s)
      ∧ format_quantity ⟨2000, 3⟩ = some "2" ∧ format_quantity ⟨2500, 3⟩ = some "2,5" := by
  refine ⟨?_, by decide, by decide⟩
  have hS2 : (if d.man < 0 then ['-'] else ([] : List Char))
      = (if decide (d.man < 0) then ['-'] else []) := by
    by_cases hs : d.man < 0 <;> simp [hs]
  refine ⟨⟨((if d.man < 0 then ['-'] else [])
        ++ (natDigits ((Decimal.quantizeHU 3 d).man.natAbs / 1000)
          ++ (if rstripChar '0' (fixed3 ((Decimal.quantizeHU 3 d).man.natAbs % 1000)) = []
              then []
              else '.' :: rstripChar '0'
                (fixed3 ((Decimal.quantizeHU 3 d).man.natAbs % 1000))))).map dotToComma⟩,
    decOfDigits (decide (d.man < 0))
      (natDigits ((Decimal.quantizeHU 3 d).man.natAbs / 1000))
      (rstripChar '0' (fixed3 ((Decimal.quantizeHU 3 d).man.natAbs % 1000))) 0,
    format_quantity_eq d hp, ?_, ?_⟩
  · rw [hS2]
    exact parse_render_string (decide (d.man < 0)) ((Decimal.quantizeHU 3 d).man.natAbs)
  · rw [format_quantity_congr
      (decOfDigits (decide (d.man < 0))
        (natDigits ((Decimal.quantizeHU 3 d).man.natAbs / 1000))
        (rstripChar '0' (fixed3 ((Decimal.quantizeHU 3 d).man.natAbs % 1000))) 0) d
      (by rw [natAbs_quantizeHU_decOfDigits])
      (decOfDigits_man_neg_iff d k h) hp]
    exact format_quantity_eq d hp

theorem c6_format_quantity_roundtrip_witness :
    (⟨2500, 3⟩ : Decimal).toRat = ((2500 : ℤ) : ℚ) / 1000
      ∧ (Decimal.quantizeHU 3 (⟨2500, 3⟩ : Decimal)).man.natAbs < 10 ^ 28
      ∧ ((∃ s : String, ∃ e : Decimal, format_quantity (⟨2500, 3⟩ : Decimal) = some s
            ∧ parse_decimal s = some (.fin e) ∧ format_quantity e = some s)
          ∧ format_quantity ⟨2000, 3⟩ = some "2" ∧ format_quantity ⟨2500, 3⟩ = some "2,5") :=
  ⟨by norm_num [Decimal.toRat], by decide,
    c6_format_quantity_roundtrip ⟨2500, 3⟩ 2500 (by norm_num [Decimal.toRat]) (by decide)⟩

/-- C6 counterexample: 1E+30 is a quantity with at most three decimal
places (its value is an integer), yet `_format_quantity` raises rather than
rendering: quantizing it to 0.001 would need a 34-digit coefficient, which
the default context traps as `InvalidOperation`. -/
theorem c6_counterexample_large_quantity :
    format_quantity ⟨1000000000000000000000000000000, 0⟩ = none
      ∧ (⟨1000000000000000000000000000000, 0⟩ : Decimal).toRat
          = ((1000000000000000000000000000000000 : ℤ) : ℚ) / 1000 := by
  constructor
  · decide
  · rw [Decimal.toRat]
    norm_num
